import Mathlib

/-!
# Verification of `src/tools/iconset/iconset.cpp` (Psi iconset component)

This file gives a shallow embedding, in Lean 4, of the data model and the
operations of `iconset.cpp`: the `Icon` class (animation handling and the
activation counter), the `Iconset` collection (its `Private` dictionary/list
pair, reference counting via `Q3Shared`, copy-on-write `detach`, loading from
`icondef.xml`) and the global `IconsetFactory` registry.  Qt-provided services
that live outside the repository (file and zip reading, image decoding, XML
parsing) enter as explicit parameters; everything written in `iconset.cpp`
itself is translated directly.

Conventions used throughout:
* `QHash` is modelled as an association list whose keys are unique in every
  reachable state (insertions in the source only happen after a
  `contains`/`remove` check, exactly as in the code);
* C++ pointers to heap objects are modelled as `Nat` identifiers; `new`
  never returns a live identifier, which is modelled by a monotone allocation
  counter;
* a null `QString` and an empty one are both modelled as `""` (the component
  only ever tests them with `isEmpty`/`isNull`).
-/

/-! ## The `Icon` value model: animation and the activation counter

`Impix` combines a pixmap and an image; nothing in the claims inspects the
pixels, so the pixel data is abstracted to a `Nat` identifier (0 = the null
image produced by the default constructor). -/
namespace IconM

/-- Pixel data of one frame, abstracted: `Impix` in the source couples a
`QPixmap` with a `QImage` made from the same data. -/
abbrev Impix := Nat

/-- The part of the `Anim` class that `iconset.cpp` observes: the frame list
(`numFrames`, `frame`), the pause flag (`pause`/`unpause`) and the current
frame position (`restart` resets it). -/
structure Anim where
  frames : List Impix
  paused : Bool
  frameNumber : Nat
  deriving Repr, DecidableEq

/-- Embeds `Anim::numFrames()`. -/
def Anim.numFrames (a : Anim) : Nat := a.frames.length

/-- Embeds `Anim::frame(n)`: the `Impix` of frame `n` (only called with `n <
numFrames` in the source). -/
def Anim.frame (a : Anim) (n : Nat) : Impix := a.frames.getD n 0

/-- Embeds `Anim::pause()`. -/
def Anim.pause (a : Anim) : Anim := { a with paused := true }

/-- Embeds `Anim::unpause()`. -/
def Anim.unpause (a : Anim) : Anim := { a with paused := false }

/-- Embeds `Anim::restart()`: back to the first frame. -/
def Anim.restart (a : Anim) : Anim := { a with frameNumber := 0 }

/-- The state of `Icon::Private` that the animation/activation operations
touch: `impix`, the owned `anim` pointer (`none` = null) and
`activatedCount`.  `activatedCount` is a C++ `int`, hence `Int`. -/
structure Icon where
  impix : Impix
  anim : Option Anim
  activatedCount : Int
  deriving Repr, DecidableEq

/-- Embeds `Icon::Icon()`: `anim = 0; activatedCount = 0;` and a null `Impix`. -/
def Icon.empty : Icon := { impix := 0, anim := none, activatedCount := 0 }

/-- Embeds `Icon::isAnimated()`: `d->anim != 0`. -/
def Icon.isAnimated (ic : Icon) : Bool := ic.anim.isSome

/-- Embeds `Icon::setImpix(impix)` (the `detach` flag only affects sharing, which is
modelled separately; here we act on the `Private` data itself). -/
def Icon.setImpix (ic : Icon) (im : Impix) : Icon := { ic with impix := im }

/-- Embeds `Icon::activated(playSound)`: increments `activatedCount`; when an
animation is present it is unpaused.  Sound playing only emits a signal and
changes no state of the icon. -/
def Icon.activated (ic : Icon) (playSound : Bool) : Icon :=
  let ic := { ic with activatedCount := ic.activatedCount + 1 }
  { ic with anim := ic.anim.map Anim.unpause }

/-- Embeds `Icon::stop()`: decrements `activatedCount`; when the result is `≤ 0` it
is clamped to `0` and a present animation is paused and restarted. -/
def Icon.stop (ic : Icon) : Icon :=
  let c := ic.activatedCount - 1
  if c ≤ 0 then
    { ic with activatedCount := 0,
              anim := ic.anim.map fun a => (a.pause).restart }
  else
    { ic with activatedCount := c }

/-- Embeds `Icon::setAnim(anim)` on the `Private` data: the old animation is
unloaded and replaced by a copy of `a`; if `a` has at least one frame the
`impix` becomes frame 0; if `a` has fewer than two frames the stored
animation is deleted again; finally, when an animation remains and the icon
was activated, the count is reset to 0 and `activated(false)` restarts it. -/
def Icon.setAnim (ic : Icon) (a : Anim) : Icon :=
  let ic1 : Icon := { ic with anim := some a }
  let ic2 : Icon := if 0 < a.numFrames then ic1.setImpix (a.frame 0) else ic1
  let ic3 : Icon := if a.numFrames < 2 then { ic2 with anim := none } else ic2
  if ic3.anim.isSome && decide (0 < ic3.activatedCount) then
    (({ ic3 with activatedCount := 0 } : Icon).activated false)
  else
    ic3

/-- The activation-related calls a client can make on one icon
(`activated(playSound)` and `stop()`). -/
inductive ActOp where
  | act (playSound : Bool)
  | stop
  deriving Repr, DecidableEq

/-- Run a sequence of `activated`/`stop` calls on an icon. -/
def runActs (ic : Icon) : List ActOp → Icon
  | [] => ic
  | ActOp.act p :: rest => runActs (ic.activated p) rest
  | ActOp.stop :: rest => runActs ic.stop rest

end IconM

/-! ## The `IconsetFactory` registry (claim C10)

`IconsetFactoryPrivate::iconsets` is a global `QList<Iconset *>`; iconsets are
identified by their addresses, modelled as `Nat` identifiers.  A null list and
an empty list behave identically in every member shown here, so the registry
is modelled as the list itself. -/
namespace Registry

/-- Embeds `IconsetFactoryPrivate::registerIconset`: append the pointer only when it
is not already in the list. -/
def registerIconset (r : List Nat) (i : Nat) : List Nat :=
  if i ∈ r then r else r ++ [i]

/-- Embeds `IconsetFactoryPrivate::unregisterIconset`: remove the pointer when
present (the subsequent `emptyPixmap`/list cleanup frees memory only and does
not change the registered contents). -/
def unregisterIconset (r : List Nat) (i : Nat) : List Nat :=
  if i ∈ r then r.erase i else r

/-- The calls that reach the registry: `Iconset::addToFactory()` and
`Iconset::removeFromFactory()`/`~Iconset()`. -/
inductive RegOp where
  | reg (i : Nat)
  | unreg (i : Nat)
  deriving Repr, DecidableEq

/-- Run a sequence of register/unregister calls. -/
def runReg (r : List Nat) : List RegOp → List Nat
  | [] => r
  | RegOp.reg i :: rest => runReg (registerIconset r i) rest
  | RegOp.unreg i :: rest => runReg (unregisterIconset r i) rest

end Registry

/-! ## Factory lookup by name (claim C1)

For the lookup only an icon's name and its payload matter; an `Iconset` is
observed through its `QHash<QString, Icon *> dict`.  `Iconset::icon` returns a
pointer into the set; `IconsetFactory::icon` copies the pointed-to icon, and
`Icon` copies share their `Private` data, so the model identifies the pointer
with the icon value. -/
namespace Lookup

/-- An icon, seen through the factory: its name and abstract image payload. -/
structure Icon where
  name : String
  impix : Nat
  deriving Repr, DecidableEq

/-- A default-constructed (empty) `Icon`. -/
def Icon.empty : Icon := { name := "", impix := 0 }

/-- An `Iconset`, seen through its dictionary. -/
structure Iconset where
  dict : List (String × Icon)
  deriving Repr, DecidableEq

/-- Embeds `Iconset::icon(name)`: null when the dictionary is empty, otherwise the
`QHash` lookup `d->dict[name]` (a null pointer when the name is absent). -/
def Iconset.icon (s : Iconset) (n : String) : Option Icon :=
  if s.dict.isEmpty then none
  else (s.dict.find? (fun e => e.1 == n)).map (·.2)

/-- Embeds `IconsetFactoryPrivate::icon(name)`: walk the registered iconsets in
registration order and stop at the first non-null result (a null `iconsets`
list behaves as the empty list). -/
def IconsetFactoryPrivate.icon : List Iconset → String → Option Icon
  | [], _ => none
  | s :: rest, n =>
    match s.icon n with
    | some i => some i
    | none => IconsetFactoryPrivate.icon rest n

/-- Embeds `IconsetFactory::iconPtr(name)` (the warning it prints aside). -/
def IconsetFactory.iconPtr (r : List Iconset) (n : String) : Option Icon :=
  IconsetFactoryPrivate.icon r n

/-- Embeds `IconsetFactory::icon(name)`: the pointed-to icon, or a
default-constructed `Icon` when the pointer is null. -/
def IconsetFactory.icon (r : List Iconset) (n : String) : Icon :=
  match IconsetFactory.iconPtr r n with
  | some i => i
  | none => Icon.empty

/-- Every dictionary entry stores an icon under that icon's own name.  The
component maintains this itself: `Iconset::Private::append` is called with
`icon->name()` everywhere except `setIcon`, which registers the icon under the
caller's chosen name. -/
def Iconset.wf (s : Iconset) : Prop :=
  ∀ e ∈ s.dict, (e.2).name = e.1

instance (s : Iconset) : Decidable s.wf := by
  unfold Iconset.wf; infer_instance

/-- Specification side of C1: the first icon whose name matches, scanning the
registered iconsets in order. -/
def firstIconNamed (r : List Iconset) (n : String) : Option Icon :=
  ((r.map (fun s => s.dict.map Prod.snd)).flatten).find? (fun i => i.name == n)

end Lookup

/-! ## The `Iconset::Private` dictionary/list pair (claim C8)

Icons are heap objects; the hash `dict` maps names to `Icon *` and `list`
keeps them in insertion order.  A pointer is a `Nat` identifier and `new
Icon(...)`, which every caller of `append` performs, draws from the monotone
counter `nextPtr`, so a freshly allocated pointer never aliases a stored
one. -/
namespace Dict

/-- Embeds `Iconset::Private`, seen through `dict` and `list`, plus the allocation
counter modelling `new`. -/
structure Priv where
  dict : List (String × Nat)
  list : List Nat
  nextPtr : Nat
  deriving Repr, DecidableEq

/-- Embeds `Iconset::Iconset()`: empty dictionary and list. -/
def Priv.empty : Priv := { dict := [], list := [], nextPtr := 0 }

/-- Embeds `QHash` lookup `dict[name]` (null when absent). -/
def dictLookup (d : List (String × Nat)) (n : String) : Option Nat :=
  (d.find? (fun e => e.1 == n)).map (·.2)

/-- Embeds `dict.contains(name)`. -/
def dictContains (d : List (String × Nat)) (n : String) : Bool :=
  (dictLookup d n).isSome

/-- Embeds `dict.erase(dict.find(name))`: drop the first (in a `QHash`: the unique)
entry with that key. -/
def dictErase (d : List (String × Nat)) (n : String) : List (String × Nat) :=
  d.eraseP (fun e => e.1 == n)

/-- Embeds `Iconset::Private::remove(name)`: when the name is present, erase its
dictionary entry, remove the pointed-to icon from `list` (`removeAll`) and
delete it. -/
def Priv.remove (s : Priv) (n : String) : Priv :=
  match dictLookup s.dict n with
  | some p =>
      { s with dict := dictErase s.dict n, list := s.list.filter (· != p) }
  | none => s

/-- Embeds `Iconset::Private::append(n, icon)`: names are unique, so an existing
entry under `n` is removed first; then `dict[n] = icon` and
`list.append(icon)`. -/
def Priv.append (s : Priv) (n : String) (p : Nat) : Priv :=
  let s1 := if dictContains s.dict n then s.remove n else s
  { s1 with dict := (n, p) :: s1.dict, list := s1.list ++ [p] }

/-- Embeds `Iconset::Private::clear()`: empty both structures (the icons are
deleted). -/
def Priv.clear (s : Priv) : Priv := { s with dict := [], list := [] }

/-- Embeds `new Icon(...)`: a fresh pointer. -/
def Priv.alloc (s : Priv) : Nat × Priv :=
  (s.nextPtr, { s with nextPtr := s.nextPtr + 1 })

/-- Embeds `Iconset::setIcon(name, icon)`: copy the icon, remove any icon under
`name`, append the copy under `name`. -/
def Priv.setIcon (s : Priv) (n : String) : Priv :=
  let (p, s1) := s.alloc
  (s1.remove n).append n p

/-- Embeds `Iconset::removeIcon(name)`. -/
def Priv.removeIcon (s : Priv) (n : String) : Priv := s.remove n

/-- Embeds `Iconset::operator+=(other)`: a fresh copy of each icon of `other`,
appended under its own name (`icon->name()`), in list order. -/
def Priv.addSet (s : Priv) (names : List String) : Priv :=
  names.foldl (fun s n => let (p, s1) := s.alloc; s1.append n p) s

/-- The mutations of claim C8 (`detach` only affects sharing and is treated
with claims C3/C4). -/
inductive SetOp where
  | setIcon (n : String)
  | removeIcon (n : String)
  | addSet (names : List String)
  | clear
  deriving Repr, DecidableEq

/-- Run a sequence of mutations. -/
def runSet (s : Priv) : List SetOp → Priv
  | [] => s
  | SetOp.setIcon n :: rest => runSet (s.setIcon n) rest
  | SetOp.removeIcon n :: rest => runSet (s.removeIcon n) rest
  | SetOp.addSet names :: rest => runSet (s.addSet names) rest
  | SetOp.clear :: rest => runSet s.clear rest

/-- The C8 invariant, together with the bookkeeping (distinct stored pointers
below the allocation counter) needed to push it through the operations. -/
def Inv (s : Priv) : Prop :=
  (s.dict.map Prod.fst).Nodup ∧
  (s.dict.map Prod.snd).Nodup ∧
  s.list.Nodup ∧
  (∀ p, p ∈ s.dict.map Prod.snd ↔ p ∈ s.list) ∧
  (∀ p ∈ s.list, p < s.nextPtr)

end Dict

/-! ## Association-list maps for the heap models (claims C3 and C4)

C++ heaps are modelled as association lists from `Nat` identifiers to stored
values. -/
namespace AMap

/-- Look a key up (the first entry wins; keys are unique in every map the
component builds). -/
def lookup {β : Type} : List (Nat × β) → Nat → Option β
  | [], _ => none
  | e :: rest, k => if e.1 == k then some e.2 else lookup rest k

/-- Apply `f` to the value stored under `k` (no-op on other keys). -/
def update {β : Type} : List (Nat × β) → Nat → (β → β) → List (Nat × β)
  | [], _, _ => []
  | e :: rest, k, f =>
      (if e.1 == k then (e.1, f e.2) else e) :: update rest k f

/-- Store `v` under the existing key `k`. -/
def setVal {β : Type} (m : List (Nat × β)) (k : Nat) (v : β) : List (Nat × β) :=
  update m k (fun _ => v)

/-- Delete the entry stored under `k`. -/
def eraseKey {β : Type} : List (Nat × β) → Nat → List (Nat × β)
  | [], _ => []
  | e :: rest, k =>
      if e.1 == k then eraseKey rest k else e :: eraseKey rest k

end AMap

/-! ## Reference counting of `Iconset::Private` via `Q3Shared` (claim C3)

`Q3Shared` holds `count` (initially 1); `ref()` increments it and `deref()`
decrements it, returning true when it reaches zero, upon which the caller
deletes the data.  The world tracks the live `Private` heap objects with
their counts and the live `Iconset` objects with the `Private` each one
points to. -/
namespace RefCount

/-- The heap of `Private` data (id ↦ `Q3Shared::count`) and the `Iconset`
objects (id ↦ id of their `Private`). -/
structure World where
  heap : List (Nat × Nat)
  objs : List (Nat × Nat)
  deriving Repr, DecidableEq

/-- How many live `Iconset` objects point to the `Private` at `d`. -/
def referrers (w : World) (d : Nat) : Nat :=
  (w.objs.filter (fun e => e.2 == d)).length

/-- Embeds `d->ref()`: increment the count of the `Private` at `d` (no effect on a
deleted datum, whose entry is gone). -/
def refData (h : List (Nat × Nat)) (d : Nat) : List (Nat × Nat) :=
  AMap.update h d (· + 1)

/-- Embeds `if (d->deref()) delete d;`: decrement the count; when it reaches zero
the `Private` is deleted. -/
def derefDelete (h : List (Nat × Nat)) (d : Nat) : List (Nat × Nat) :=
  match AMap.lookup h d with
  | some c => if c - 1 = 0 then AMap.eraseKey h d else AMap.setVal h d (c - 1)
  | none => h

/-- Embeds `Iconset::Iconset()`: a fresh object `o` owning a fresh `Private` `d`
with count 1. -/
def construct (w : World) (o d : Nat) : World :=
  { heap := (d, 1) :: w.heap, objs := (o, d) :: w.objs }

/-- Embeds `Iconset::Iconset(const Iconset &from)`: the new object `o` shares
`from`'s data (`d = from.d`) and `ref()`s it. -/
def copyConstruct (w : World) (o src : Nat) : World :=
  match AMap.lookup w.objs src with
  | some d => { heap := refData w.heap d, objs := (o, d) :: w.objs }
  | none => w

/-- Embeds `Iconset::~Iconset()`: `if (d->deref()) delete d;` and the object itself
goes away (`unregisterIconset` touches only the factory registry). -/
def destruct (w : World) (o : Nat) : World :=
  match AMap.lookup w.objs o with
  | some d => { heap := derefDelete w.heap d, objs := AMap.eraseKey w.objs o }
  | none => w

/-- Embeds `Iconset::operator=(from)`: release the old data (deleting it when the
count hits zero), then adopt and `ref()` `from`'s data. -/
def assign (w : World) (o src : Nat) : World :=
  match AMap.lookup w.objs o, AMap.lookup w.objs src with
  | some dOld, some dNew =>
      { heap := refData (derefDelete w.heap dOld) dNew,
        objs := AMap.setVal w.objs o dNew }
  | _, _ => w

/-- Well-formed world: unique identifiers, every object points to a live
`Private`, and every count equals the number of objects sharing that
`Private` — the `Q3Shared` discipline. -/
def Wf (w : World) : Prop :=
  (w.heap.map Prod.fst).Nodup ∧
  (w.objs.map Prod.fst).Nodup ∧
  (∀ e ∈ w.objs, (AMap.lookup w.heap e.2).isSome) ∧
  (∀ e ∈ w.heap, e.2 = referrers w e.1)

instance (w : World) : Decidable (Wf w) := by
  unfold Wf; infer_instance

end RefCount

/-! ## Copy-on-write `detach`: the counterexample model (claim C4)

A concrete heap world for the C4 counterexample: the heap stores the
observable content of each `Iconset::Private` together with its count, so
that the effect of a mutation on the *other* objects sharing the data can be
stated.  The full analysis of the detach discipline, covering both classes
and every mutator, is the `Share`/`Iset`/`IconC` model below. -/
namespace Cow

/-- An `Iconset::Private`: the `Q3Shared` count and the content observed by
the operations of this claim (`dict`/`list` abstracted to the name/icon
association, the `info` hash, `filename`). -/
structure Priv where
  count : Nat
  icons : List (String × Nat)
  info : List (String × String)
  filename : String
  deriving Repr, DecidableEq

/-- Heap of `Private` data, live `Iconset` objects, allocation counter. -/
structure World where
  heap : List (Nat × Priv)
  objs : List (Nat × Nat)
  nextData : Nat
  deriving Repr, DecidableEq

/-- What the public interface observes through one object: `icon()`/
`iterator()`, `info()` and `fileName()` (the count itself is not
observable). -/
def view (w : World) (o : Nat) :
    Option (List (String × Nat) × List (String × String) × String) :=
  match AMap.lookup w.objs o with
  | some d => (AMap.lookup w.heap d).map (fun p => (p.icons, p.info, p.filename))
  | none => none

/-- Embeds `Iconset::setInfo(i)`: `d->info = i;` — note: no `detach()`. -/
def setInfo (w : World) (o : Nat) (i : List (String × String)) : World :=
  match AMap.lookup w.objs o with
  | some d =>
      { w with heap := AMap.update w.heap d (fun p => { p with info := i }) }
  | none => w

end Cow

/-! ## Loading `icondef.xml` (claims C2 and C6)

The XML tree is modelled by element nodes only: the source walks children
with `QDomNode::toElement()` and skips nodes that are not elements.  The Qt
services behind `Iconset::load` — the file system and zip reader used by
`Private::loadData`, `QDomDocument::setContent`, and the image/sound decoding
inside `Private::loadIcon` — live outside this repository and enter as an
explicit environment. -/
namespace Load

/-- A parsed XML element: tag name, text content, attributes, element
children. -/
inductive QDomElement where
  | mk (tagName : String) (text : String) (attrs : List (String × String))
      (children : List QDomElement)

/-- The tag name. -/
def QDomElement.tagName : QDomElement → String
  | .mk t _ _ _ => t

/-- The concatenated text content. -/
def QDomElement.text : QDomElement → String
  | .mk _ x _ _ => x

/-- The attribute list. -/
def QDomElement.attrs : QDomElement → List (String × String)
  | .mk _ _ a _ => a

/-- The element children. -/
def QDomElement.children : QDomElement → List QDomElement
  | .mk _ _ _ c => c

/-- Embeds `QDomElement::attribute(name)`: the value, or a null string when the
attribute is absent. -/
def QDomElement.attribute (e : QDomElement) (n : String) : String :=
  ((e.attrs.find? (fun a => a.1 == n)).map (·.2)).getD ""

/-- A parsed document, seen through `documentElement()`. -/
structure QDomDocument where
  documentElement : QDomElement

/-- The fields of `Iconset::Private` that `load`/`loadMeta` write:
the meta data, `filename`, the `info` hash, and the number of icons
added by `loadIcon` (their dictionary bookkeeping is the model of claim
C8). -/
structure Private where
  name : String
  version : String
  description : String
  creation : String
  homeUrl : String
  filename : String
  authors : List String
  info : List (String × String)
  iconsLoaded : Nat
  deriving Repr, DecidableEq

/-- Embeds `Iconset::Private::init()`: `name = "Unnamed"`, null strings elsewhere. -/
def Private.init : Private :=
  { name := "Unnamed", version := "", description := "", creation := "",
    homeUrl := "", filename := "", authors := [], info := [], iconsLoaded := 0 }

/-- The entry appended to `authors` for one `<author>` element: the element
text followed by optional Email/JID/WWW markup from the attributes. -/
def authorEntry (e : QDomElement) : String :=
  let tmp := "<br>&nbsp;&nbsp;"
  let n := e.text
  let n := if e.attribute "email" != "" then
      n ++ tmp ++ "Email: <a href=\x27mailto:" ++ e.attribute "email" ++ "\x27>"
        ++ e.attribute "email" ++ "</a>"
    else n
  let n := if e.attribute "jid" != "" then
      n ++ tmp ++ "JID: <a href=\x27jabber:" ++ e.attribute "jid" ++ "\x27>"
        ++ e.attribute "jid" ++ "</a>"
    else n
  let n := if e.attribute "www" != "" then
      n ++ tmp ++ "WWW: <a href=\x27" ++ e.attribute "www" ++ "\x27>"
        ++ e.attribute "www" ++ "</a>"
    else n
  n

/-- One iteration of the `loadMeta` child loop: dispatch on the tag name. -/
def loadMetaStep (st : Private) (e : QDomElement) : Private :=
  if e.tagName == "name" then { st with name := e.text }
  else if e.tagName == "version" then { st with version := e.text }
  else if e.tagName == "description" then { st with description := e.text }
  else if e.tagName == "author" then
    { st with authors := st.authors ++ [authorEntry e] }
  else if e.tagName == "creation" then { st with creation := e.text }
  else if e.tagName == "home" then { st with homeUrl := e.text }
  else st

/-- Embeds `Iconset::Private::loadMeta(i, dir)` (`dir` is unused in the source). -/
def loadMeta (st : Private) (i : QDomElement) : Private :=
  i.children.foldl loadMetaStep st

/-- Embeds `QHash` insert for the string-keyed `info` hash. -/
def infoSet (m : List (String × String)) (k v : String) :
    List (String × String) :=
  (k, v) :: m.filter (fun e => e.1 != k)

/-- The Qt services used by `Iconset::load`, all implemented outside this
repository: `QFileInfo`/`QFile` and `UnZip` behind `Private::loadData`,
`QDomDocument::setContent`, and the decoding work inside `Private::loadIcon`,
of which claim C2 observes only success or failure. -/
structure Env where
  fsIsDir : String → Bool
  fsExtension : String → String
  fsBaseName : String → String
  readFile : String → List Nat
  zipOpen : String → Bool
  zipRead : String → String → Option (List Nat)
  setContent : List Nat → Option QDomDocument
  loadIconOk : QDomElement → String → Bool

/-- Embeds `Iconset::Private::loadData(fileName, dir)`: read from a plain directory,
or from a `.jisp`/`.zip` archive (trying `<base>/<fileName>` and then
`/<fileName>`); an unreadable file yields an empty byte array. -/
def loadData (env : Env) (fileName dir : String) : List Nat :=
  if env.fsIsDir dir then
    env.readFile (dir ++ "/" ++ fileName)
  else if env.fsExtension dir == "jisp" || env.fsExtension dir == "zip" then
    if !env.zipOpen dir then []
    else
      match env.zipRead dir (env.fsBaseName dir ++ "/" ++ fileName) with
      | some ba => ba
      | none => (env.zipRead dir ("/" ++ fileName)).getD []
  else []

/-- One iteration of the `Private::load` child loop: `meta` elements feed
`loadMeta`, each `icon` element must load (`success` latches any failure,
and a successful `loadIcon` appends one icon), `x` elements fill `info`. -/
def privLoadStep (env : Env) (dir : String) (acc : Bool × Private)
    (i : QDomElement) : Bool × Private :=
  let success := acc.1
  let st := acc.2
  if i.tagName == "meta" then (success, loadMeta st i)
  else if i.tagName == "icon" then
    let ret := env.loadIconOk i dir
    (success && ret,
      if ret then { st with iconsLoaded := st.iconsLoaded + 1 } else st)
  else if i.tagName == "x" then
    (success, { st with info := infoSet st.info (i.attribute "xmlns") i.text })
  else (success, st)

/-- Embeds `Iconset::Private::load(doc, dir)`: requires the document element to be
`icondef`, then folds over its children. -/
def privLoad (env : Env) (st : Private) (doc : QDomDocument) (dir : String) :
    Bool × Private :=
  let base := doc.documentElement
  if base.tagName != "icondef" then (false, st)
  else base.children.foldl (privLoadStep env dir) (true, st)

/-- Embeds `Iconset::load(dir)`: read `icondef.xml` from `dir`, parse it, run
`Private::load`, and record `dir` as the file name exactly on success. -/
def load (env : Env) (st : Private) (dir : String) : Bool × Private :=
  let ba := loadData env "icondef.xml" dir
  if ba.isEmpty then (false, st)
  else
    match env.setContent ba with
    | none => (false, st)
    | some doc =>
        let r := privLoad env st doc dir
        if r.1 then (true, { r.2 with filename := dir }) else (false, r.2)

/-- Embeds `Iconset::name()`. -/
def Iconset.name (st : Private) : String := st.name

/-- Embeds `Iconset::version()`. -/
def Iconset.version (st : Private) : String := st.version

/-- Embeds `Iconset::description()`. -/
def Iconset.description (st : Private) : String := st.description

/-- Embeds `Iconset::creation()`. -/
def Iconset.creation (st : Private) : String := st.creation

/-- Embeds `Iconset::homeUrl()`. -/
def Iconset.homeUrl (st : Private) : String := st.homeUrl

/-- Embeds `Iconset::authors()`. -/
def Iconset.authors (st : Private) : List String := st.authors

/-- Embeds `Iconset::fileName()`. -/
def Iconset.fileName (st : Private) : String := st.filename

/-- Specification side for C6: the text of the last child element carrying
the given tag. -/
def lastTagText (tag : String) (l : List QDomElement) : Option String :=
  (l.reverse.find? (fun e => e.tagName == tag)).map (·.text)

end Load

/-- A concrete environment for exercising `Iconset::load`: a plain directory
whose `icondef.xml` holds one icon that loads successfully. -/
def envW : Load.Env :=
  { fsIsDir := fun _ => true
    fsExtension := fun _ => ""
    fsBaseName := fun _ => ""
    readFile := fun _ => [1]
    zipOpen := fun _ => false
    zipRead := fun _ _ => none
    setContent := fun ba =>
      if ba == [1] then
        some ⟨Load.QDomElement.mk "icondef" "" []
          [Load.QDomElement.mk "icon" "" [] []]⟩
      else none
    loadIconOk := fun _ _ => true }

/-! ## Shared `Private` data and the detach discipline (claims C4, amended)

Both `Icon` and `Iconset` hold a reference-counted `Private`, and every
mutator except `Iconset::setInfo`, `Iconset::setFileName`, `Icon::activated`,
`Icon::stop` and `Icon::blockSignals` begins with `detach()`, which replaces
a shared `Private` (count > 1) by a fresh copy.  The heap world below is
generic in the content a `Private` carries, so that one model covers both
classes; the two content types and the per-operation instances follow. -/

namespace Share

/-- A reference-counted `Private` carrying content of type `σ`. -/
structure Priv (σ : Type) where
  count : Nat
  content : σ
  deriving Repr, DecidableEq

/-- Heap of `Private` data, live objects, allocation counter (a fresh
`Private` from `new` never aliases a live one). -/
structure World (σ : Type) where
  heap : List (Nat × Priv σ)
  objs : List (Nat × Nat)
  nextData : Nat
  deriving Repr, DecidableEq

/-- The state observed through one object: the content of its `Private` (the
reference count itself is not observable through the public interface). -/
def view {σ : Type} (w : World σ) (o : Nat) : Option σ :=
  match AMap.lookup w.objs o with
  | some d => (AMap.lookup w.heap d).map (·.content)
  | none => none

/-- Embeds `detach()` of both classes: when the data is shared
(`count > 1`), a fresh `Private` built by the copy constructor — whose
content copy enters as `cp` — replaces it, the shared one losing one
reference.  For `Iconset::Private` the copy constructor duplicates the whole
observable content (`setInformation` plus an icon-by-icon copy), so `cp` is
the identity; for `Icon::Private` see `iconCopy` below. -/
def detach {σ : Type} (w : World σ) (o : Nat) (cp : σ → σ) : World σ :=
  match AMap.lookup w.objs o with
  | some d =>
      match AMap.lookup w.heap d with
      | some p =>
          if 1 < p.count then
            { heap := (w.nextData, ⟨1, cp p.content⟩) ::
                AMap.setVal w.heap d ⟨p.count - 1, p.content⟩,
              objs := AMap.setVal w.objs o w.nextData,
              nextData := w.nextData + 1 }
          else w
      | none => w
  | none => w

/-- A write to the object's own `Private` content with no detach: the body
of `Iconset::setInfo`/`setFileName` and of
`Icon::activated`/`stop`/`blockSignals`. -/
def mutate {σ : Type} (w : World σ) (o : Nat) (f : σ → σ) : World σ :=
  match AMap.lookup w.objs o with
  | some d =>
      { w with heap := AMap.update w.heap d (fun p => ⟨p.count, f p.content⟩) }
  | none => w

/-- The shape of every detaching mutator: `detach();` then write the
object's own `Private`. -/
def detachThenMutate {σ : Type} (w : World σ) (o : Nat) (cp f : σ → σ) :
    World σ :=
  mutate (detach w o cp) o f

end Share

/-- The observable content of an `Iconset::Private`: the meta/info/file
state as in the `Load` model, plus the name-keyed icon association (the
dict/list pair in full detail is the model of claim C8). -/
structure IsetContent where
  ld : Load.Private
  icons : List (String × Nat)
  deriving Repr, DecidableEq

/-- Embeds `Iconset::Private::setInformation(from)`: copy the name, version,
description, creation date, home URL, file name, authors and `info` (and not
the icons). -/
def setInformationContent (dst src : Load.Private) : Load.Private :=
  { dst with
    name := src.name
    version := src.version
    description := src.description
    creation := src.creation
    homeUrl := src.homeUrl
    filename := src.filename
    authors := src.authors
    info := src.info }

namespace Iset

/-- Embeds the `remove(name)`-then-`append(name, icon)` effect of
`Iconset::setIcon` on the name-keyed association (`p` is the fresh
`new Icon` copy). -/
def iconsPut (ics : List (String × Nat)) (n : String) (p : Nat) :
    List (String × Nat) :=
  (n, p) :: ics.filter (fun e => e.1 != n)

/-- Embeds `Iconset::setIcon(name, icon)`: `detach()`, then replace the icon
stored under the name by the fresh copy `pn`. -/
def setIcon (w : Share.World IsetContent) (o : Nat) (n : String) (pn : Nat) :
    Share.World IsetContent :=
  Share.detachThenMutate w o id
    (fun c => { c with icons := iconsPut c.icons n pn })

/-- Embeds `Iconset::removeIcon(name)`: `detach()`, then remove. -/
def removeIcon (w : Share.World IsetContent) (o : Nat) (n : String) :
    Share.World IsetContent :=
  Share.detachThenMutate w o id
    (fun c => { c with icons := c.icons.filter (fun e => e.1 != n) })

/-- Embeds `Iconset::clear()`: `detach(); d->clear();`. -/
def clear (w : Share.World IsetContent) (o : Nat) :
    Share.World IsetContent :=
  Share.detachThenMutate w o id (fun c => { c with icons := [] })

/-- Embeds `Iconset::operator+=(other)`: `detach()`, then append a fresh
copy of each of the other set's icons under its own name, in list order. -/
def plusEq (w : Share.World IsetContent) (o : Nat)
    (entries : List (String × Nat)) : Share.World IsetContent :=
  Share.detachThenMutate w o id
    (fun c => { c with
      icons := entries.foldl (fun ics e => iconsPut ics e.1 e.2) c.icons })

/-- Embeds `Iconset::setInformation(from)`: `detach()`, then copy the meta
data of the other set's `Private`. -/
def setInformation (w : Share.World IsetContent) (o : Nat)
    (src : Load.Private) : Share.World IsetContent :=
  Share.detachThenMutate w o id
    (fun c => { c with ld := setInformationContent c.ld src })

/-- Embeds `Iconset::load(dir)`: `detach()`, then the loading work of the
`Load` model on the object's own `Private` (the icons the loader appends are
bookkept by `iconsLoaded` there and, pointer by pointer, by the claim C8
model). -/
def load (env : Load.Env) (w : Share.World IsetContent) (o : Nat)
    (dir : String) : Share.World IsetContent :=
  Share.detachThenMutate w o id
    (fun c => { c with ld := (Load.load env c.ld dir).2 })

/-- Embeds `Iconset::setInfo(i)`: `d->info = i;` — no `detach()`. -/
def setInfo (w : Share.World IsetContent) (o : Nat)
    (i : List (String × String)) : Share.World IsetContent :=
  Share.mutate w o (fun c => { c with ld := { c.ld with info := i } })

/-- Embeds `Iconset::setFileName(f)`: `d->filename = f;` — no `detach()`. -/
def setFileName (w : Share.World IsetContent) (o : Nat) (f : String) :
    Share.World IsetContent :=
  Share.mutate w o (fun c => { c with ld := { c.ld with filename := f } })

end Iset

/-- Embeds `Icon::removeAnim()` on the `Private` data: nothing without an
animation; otherwise the activation count is zeroed, `stop()` clamps it and
pauses/restarts the animation, and the animation is deleted. -/
def IconM.Icon.removeAnim (ic : IconM.Icon) : IconM.Icon :=
  match ic.anim with
  | none => ic
  | some _ =>
      { (({ ic with activatedCount := 0 } : IconM.Icon).stop) with
        anim := none }

/-- The observable content of an `Icon::Private`: name, regular expression
(abstracted to its pattern string), the text hash, the sound file name, the
impix/anim/activation state of the claims C5 and C9 model, and the
`QObject` signal gate toggled by `blockSignals`.  The cached `QIconSet` is
derived data (reset to null by the copy constructor) and not part of the
observable content. -/
structure IconContent where
  name : String
  regExp : String
  text : List (String × String)
  sound : String
  icon : IconM.Icon
  signalsBlocked : Bool
  deriving Repr, DecidableEq

/-- Embeds the copy constructor of `Icon::Private`: name, regexp, text,
sound, impix and anim are duplicated, `activatedCount` is left uninitialised
(`junk` stands for the indeterminate value) and the fresh `QObject` does not
block signals. -/
def iconCopy (junk : Int) (c : IconContent) : IconContent :=
  { c with
    icon := { c.icon with activatedCount := junk }
    signalsBlocked := false }

namespace IconC

/-- Embeds `Icon::setName(name)`: `detach();` then write. -/
def setName (v : Share.World IconContent) (a : Nat) (nm : String)
    (junk : Int) : Share.World IconContent :=
  Share.detachThenMutate v a (iconCopy junk) (fun c => { c with name := nm })

/-- Embeds `Icon::setRegExp(regExp)`: `detach();` then write. -/
def setRegExp (v : Share.World IconContent) (a : Nat) (r : String)
    (junk : Int) : Share.World IconContent :=
  Share.detachThenMutate v a (iconCopy junk) (fun c => { c with regExp := r })

/-- Embeds `Icon::setText(t)`: `detach();` then write. -/
def setText (v : Share.World IconContent) (a : Nat)
    (t : List (String × String)) (junk : Int) : Share.World IconContent :=
  Share.detachThenMutate v a (iconCopy junk) (fun c => { c with text := t })

/-- Embeds `Icon::setSound(sound)`: `detach();` then write. -/
def setSound (v : Share.World IconContent) (a : Nat) (snd : String)
    (junk : Int) : Share.World IconContent :=
  Share.detachThenMutate v a (iconCopy junk) (fun c => { c with sound := snd })

/-- Embeds `Icon::setImpix(impix)` with the public default detach flag. -/
def setImpix (v : Share.World IconContent) (a : Nat) (im : IconM.Impix)
    (junk : Int) : Share.World IconContent :=
  Share.detachThenMutate v a (iconCopy junk)
    (fun c => { c with icon := c.icon.setImpix im })

/-- Embeds `Icon::setAnim(anim)` with the public default detach flag. -/
def setAnim (v : Share.World IconContent) (a : Nat) (an : IconM.Anim)
    (junk : Int) : Share.World IconContent :=
  Share.detachThenMutate v a (iconCopy junk)
    (fun c => { c with icon := c.icon.setAnim an })

/-- Embeds `Icon::removeAnim()` with the public default detach flag. -/
def removeAnim (v : Share.World IconContent) (a : Nat) (junk : Int) :
    Share.World IconContent :=
  Share.detachThenMutate v a (iconCopy junk)
    (fun c => { c with icon := c.icon.removeAnim })

/-- Embeds `Icon::stripFirstAnimFrame()`: `detach();` then the external
`Anim::stripFirstFrame`, entering as `fn`. -/
def stripFirstAnimFrame (v : Share.World IconContent) (a : Nat)
    (fn : IconM.Anim → IconM.Anim) (junk : Int) : Share.World IconContent :=
  Share.detachThenMutate v a (iconCopy junk)
    (fun c => { c with icon := { c.icon with anim := c.icon.anim.map fn } })

/-- Embeds `Icon::loadFromData(ba, isAnim)`: `detach();` then, when
`isAnim`, `setAnim` with the externally decoded animation (`decoded`, zero
frames on a failed decode); when that leaves no loaded frame, a successful
image decode (`img`) sets the impix. -/
def loadFromData (v : Share.World IconContent) (a : Nat) (isAnim : Bool)
    (decoded : IconM.Anim) (img : Option IconM.Impix) (junk : Int) :
    Share.World IconContent :=
  Share.detachThenMutate v a (iconCopy junk) (fun c =>
    let ret := isAnim && decide (0 < decoded.numFrames)
    let c := if isAnim then { c with icon := c.icon.setAnim decoded } else c
    if !ret then
      match img with
      | some im => { c with icon := c.icon.setImpix im }
      | none => c
    else c)

/-- Embeds `Icon::activated(playSound)`: the shared counter and animation
run-state are written in place — no `detach()`. -/
def activated (v : Share.World IconContent) (a : Nat) (ps : Bool) :
    Share.World IconContent :=
  Share.mutate v a (fun c => { c with icon := c.icon.activated ps })

/-- Embeds `Icon::stop()`: the shared counter and animation run-state are
written in place — no `detach()`. -/
def stop (v : Share.World IconContent) (a : Nat) : Share.World IconContent :=
  Share.mutate v a (fun c => { c with icon := c.icon.stop })

/-- Embeds `Icon::blockSignals(b)`: toggles the shared `Private` object's
signal gate — no `detach()`. -/
def blockSignals (v : Share.World IconContent) (a : Nat) (b : Bool) :
    Share.World IconContent :=
  Share.mutate v a (fun c => { c with signalsBlocked := b })

end IconC

/-- A concrete shared iconset world for the C4 witness: objects 1 and 2
share the `Private` at 0 (count 2). -/
def wIset0 : Share.World IsetContent :=
  { heap := [(0, ⟨2, ⟨Load.Private.init, [("n", 7)]⟩⟩)],
    objs := [(1, 0), (2, 0)], nextData := 1 }

/-- A concrete icon content for the C4 witness. -/
def qIcon0 : IconContent :=
  { name := "i", regExp := "", text := [], sound := "",
    icon := IconM.Icon.empty, signalsBlocked := false }

/-- A concrete shared icon world for the C4 witness: objects 1 and 2 share
the `Private` at 0 (count 2). -/
def vIcon0 : Share.World IconContent :=
  { heap := [(0, ⟨2, qIcon0⟩)], objs := [(1, 0), (2, 0)], nextData := 1 }

/-! ## Theorems -/

/-! ## Claims C5 and C9: `setAnim` and the activation counter -/
/-- Helper: `activated`/`stop` sequences keep a non-negative counter
non-negative. -/
theorem runActs_count_nonneg (ops : List IconM.ActOp) (ic : IconM.Icon)
    (h : 0 ≤ ic.activatedCount) : 0 ≤ (IconM.runActs ic ops).activatedCount := by
  induction ops generalizing ic with
  | nil => simpa [IconM.runActs] using h
  | cons op rest ih =>
    cases op with
    | act p =>
      refine ih _ ?_
      simp only [IconM.Icon.activated]
      omega
    | stop =>
      refine ih _ ?_
      simp only [IconM.Icon.stop]
      split <;> simp <;> omega

/-- Claim C5: after `Icon::setAnim(anim)`, `isAnimated()` is true exactly when
`anim` has two or more frames, and when `anim` has at least one frame the
icon's `impix` is `anim`'s first frame. -/
theorem setAnim_animated_iff_and_first_frame (ic : IconM.Icon) (a : IconM.Anim) :
    ((ic.setAnim a).isAnimated = true ↔ 2 ≤ a.numFrames) ∧
    (1 ≤ a.numFrames → (ic.setAnim a).impix = a.frame 0) := by
  by_cases h2 : a.numFrames < 2 <;> by_cases h1 : 0 < a.numFrames <;>
    simp [IconM.Icon.setAnim, IconM.Icon.setImpix, IconM.Icon.activated,
      IconM.Icon.isAnimated, h1, h2] <;>
    first
      | omega
      | (split <;> simp <;> omega)

/-- Witness for C5 at a concrete icon and one-frame animation. -/
theorem setAnim_animated_iff_and_first_frame_witness :
    (IconM.Icon.empty.setAnim ⟨[5], true, 0⟩).impix =
      IconM.Anim.frame ⟨[5], true, 0⟩ 0 :=
  (setAnim_animated_iff_and_first_frame IconM.Icon.empty ⟨[5], true, 0⟩).2 (by decide)

/-- Claim C9: starting from a freshly constructed icon, any sequence of
`activated`/`stop` calls leaves `activatedCount` non-negative, and a `stop`
whose decrement would reach zero or below resets the counter to exactly zero,
pausing and restarting a present animation. -/
theorem activated_stop_counter_nonneg :
    (∀ ops : List IconM.ActOp,
        0 ≤ (IconM.runActs IconM.Icon.empty ops).activatedCount) ∧
    (∀ ic : IconM.Icon, ic.activatedCount - 1 ≤ 0 →
        ic.stop.activatedCount = 0 ∧
        ∀ a, ic.anim = some a → ic.stop.anim = some ((a.pause).restart)) := by
  constructor
  · intro ops
    exact runActs_count_nonneg ops IconM.Icon.empty (by simp [IconM.Icon.empty])
  · intro ic h
    constructor
    · simp only [IconM.Icon.stop]
      split <;> simp <;> omega
    · intro a ha
      simp only [IconM.Icon.stop]
      split
      · simp [ha]
      · omega

/-- Witness for C9: a `stop` on an icon with counter 1 and a live animation
clamps the counter to 0 and pauses/restarts the animation. -/
theorem activated_stop_counter_nonneg_witness :
    (⟨0, some ⟨[1, 2], false, 1⟩, 1⟩ : IconM.Icon).stop.activatedCount = 0 :=
  (activated_stop_counter_nonneg.2 ⟨0, some ⟨[1, 2], false, 1⟩, 1⟩ (by decide)).1

/-- Helper: both registry operations preserve freedom from duplicates. -/
theorem runReg_nodup (ops : List Registry.RegOp) (r : List Nat) (h : r.Nodup) :
    (Registry.runReg r ops).Nodup := by
  induction ops generalizing r with
  | nil => simpa [Registry.runReg] using h
  | cons op rest ih =>
    cases op with
    | reg i =>
      refine ih _ ?_
      by_cases hi : i ∈ r
      · simpa [Registry.registerIconset, hi] using h
      · simp [Registry.registerIconset, hi, List.nodup_append, h,
          List.disjoint_singleton]
    | unreg i =>
      refine ih _ ?_
      by_cases hi : i ∈ r <;>
        simp [Registry.unregisterIconset, hi, h, List.Nodup.erase _ h]

/-- Claim C10: registering is idempotent, every reachable registry is free of
duplicates, and unregistering a duplicate-free registry removes exactly the
occurrences of that one iconset (hence at most one entry). -/
theorem registerIconset_idempotent :
    (∀ (r : List Nat) (i : Nat),
        Registry.registerIconset (Registry.registerIconset r i) i =
          Registry.registerIconset r i) ∧
    (∀ ops : List Registry.RegOp, (Registry.runReg [] ops).Nodup) ∧
    (∀ (r : List Nat) (i : Nat), r.Nodup →
        Registry.unregisterIconset r i = r.filter (· != i) ∧
        r.length ≤ (Registry.unregisterIconset r i).length + 1) := by
  refine ⟨fun r i => ?_, fun ops => runReg_nodup ops [] (by simp), fun r i h => ?_⟩
  · by_cases hi : i ∈ r
    · simp [Registry.registerIconset, hi]
    · simp [Registry.registerIconset, hi]
  · by_cases hi : i ∈ r
    · constructor
      · simp only [Registry.unregisterIconset, hi, if_true]
        exact h.erase_eq_filter i
      · simp only [Registry.unregisterIconset, hi, if_true]
        have := List.length_erase_of_mem hi
        omega
    · constructor
      · simp only [Registry.unregisterIconset, hi, if_false]
        refine (List.filter_eq_self.mpr ?_).symm
        intro a ha
        simp only [bne_iff_ne, ne_eq]
        intro hai
        exact hi (hai ▸ ha)
      · simp [Registry.unregisterIconset, hi]

/-- Witness for C10 at a concrete duplicate-free registry. -/
theorem registerIconset_idempotent_witness :
    Registry.unregisterIconset [3, 5] 5 = [3, 5].filter (· != 5) :=
  (registerIconset_idempotent.2.2 [3, 5] 5 (by decide)).1

/-- Helper: on a dictionary whose entries carry their own key as name, lookup
by key coincides with searching the stored icons by name. -/
theorem dict_find_by_key_eq_find_by_name (d : List (String × Lookup.Icon))
    (n : String) (h : ∀ e ∈ d, (e.2).name = e.1) :
    (d.find? (fun e => e.1 == n)).map (·.2) =
      (d.map Prod.snd).find? (fun i => i.name == n) := by
  induction d with
  | nil => simp
  | cons e rest ih =>
    obtain ⟨k, i⟩ := e
    have hname : i.name = k := h (k, i) (by simp)
    by_cases hk : k = n
    · subst hk
      rw [List.find?_cons_of_pos _ (by simp), List.map_cons,
        List.find?_cons_of_pos _ (by simp [hname])]
      rfl
    · rw [List.find?_cons_of_neg _ (by simp [hk]), List.map_cons,
        List.find?_cons_of_neg _ (by simp [hname, hk])]
      exact ih (fun e he => h e (by simp [he]))

/-- Helper: under well-formedness, the `QHash` lookup by key coincides with
searching the stored icons by their names. -/
theorem iconset_icon_eq_find_by_name (s : Lookup.Iconset) (n : String)
    (h : s.wf) :
    s.icon n = (s.dict.map Prod.snd).find? (fun i => i.name == n) := by
  obtain ⟨d⟩ := s
  cases d with
  | nil => simp [Lookup.Iconset.icon]
  | cons e rest =>
    rw [Lookup.Iconset.icon, if_neg (by simp)]
    exact dict_find_by_key_eq_find_by_name _ n h

/-- Helper: `find?` over an appended list takes the first hit of the left
part, falling back on the right part. -/
theorem find?_append_or {α : Type} (l₁ l₂ : List α) (p : α → Bool) :
    (l₁ ++ l₂).find? p = ((l₁.find? p).or (l₂.find? p)) := by
  induction l₁ with
  | nil => simp
  | cons a rest ih =>
    by_cases ha : p a
    · rw [List.cons_append, List.find?_cons_of_pos _ ha,
        List.find?_cons_of_pos _ ha]
      rfl
    · rw [List.cons_append, List.find?_cons_of_neg _ ha,
        List.find?_cons_of_neg _ ha]
      exact ih

/-- Claim C1: when every registered iconset stores icons under their own
names, `IconsetFactory::iconPtr(name)` returns (a pointer to) the first icon
with that name in registration order, or null when there is none, and
`IconsetFactory::icon(name)` returns that icon, or a default-constructed one
when there is none. -/
theorem factory_icon_first_match (r : List Lookup.Iconset) (n : String)
    (h : ∀ s ∈ r, s.wf) :
    Lookup.IconsetFactory.iconPtr r n = Lookup.firstIconNamed r n ∧
    Lookup.IconsetFactory.icon r n =
      (Lookup.firstIconNamed r n).getD Lookup.Icon.empty := by
  have main : Lookup.IconsetFactoryPrivate.icon r n = Lookup.firstIconNamed r n := by
    induction r with
    | nil => simp [Lookup.IconsetFactoryPrivate.icon, Lookup.firstIconNamed]
    | cons s rest ih =>
      have hs : s.wf := h s (by simp)
      have hrest := ih (fun t ht => h t (by simp [ht]))
      rw [Lookup.IconsetFactoryPrivate.icon,
        iconset_icon_eq_find_by_name s n hs, hrest]
      unfold Lookup.firstIconNamed
      rw [List.map_cons, List.flatten_cons, find?_append_or]
      cases hfind : (s.dict.map Prod.snd).find? (fun i => i.name == n) <;>
        simp [Option.or, hfind]
  refine ⟨main, ?_⟩
  rw [Lookup.IconsetFactory.icon, Lookup.IconsetFactory.iconPtr, main]
  cases Lookup.firstIconNamed r n <;> rfl

/-- Witness for C1: a two-iconset registry, looked up at a name found in the
second set. -/
theorem factory_icon_first_match_witness :
    Lookup.IconsetFactory.iconPtr
        [⟨[("a", ⟨"a", 1⟩)]⟩, ⟨[("b", ⟨"b", 2⟩)]⟩] "b" =
      Lookup.firstIconNamed [⟨[("a", ⟨"a", 1⟩)]⟩, ⟨[("b", ⟨"b", 2⟩)]⟩] "b" :=
  (factory_icon_first_match [⟨[("a", ⟨"a", 1⟩)]⟩, ⟨[("b", ⟨"b", 2⟩)]⟩] "b"
    (by decide)).1

/-- Helper: a successful dictionary lookup returns a stored value. -/
theorem mem_values_of_dictLookup (d : List (String × Nat)) (n : String) (p : Nat)
    (h : Dict.dictLookup d n = some p) : p ∈ d.map Prod.snd := by
  simp only [Dict.dictLookup, Option.map_eq_some'] at h
  obtain ⟨e, he, hep⟩ := h
  have := List.mem_of_find?_eq_some he
  exact hep ▸ List.mem_map_of_mem Prod.snd this

/-- Helper: erasing a key removes it for good when keys are unique. -/
theorem not_mem_keys_dictErase (d : List (String × Nat)) (n : String)
    (hk : (d.map Prod.fst).Nodup) : n ∉ (Dict.dictErase d n).map Prod.fst := by
  induction d with
  | nil => simp [Dict.dictErase]
  | cons e rest ih =>
    obtain ⟨k, v⟩ := e
    by_cases hkn : k = n
    · subst hkn
      rw [Dict.dictErase, List.eraseP_cons_of_pos (by simp)]
      simp only [List.map_cons, List.nodup_cons] at hk
      exact hk.1
    · rw [Dict.dictErase, List.eraseP_cons_of_neg (by simp [hkn])]
      simp only [List.map_cons, List.nodup_cons] at hk
      simp only [List.map_cons, List.mem_cons]
      rintro (h | h)
      · exact hkn h.symm
      · exact ih hk.2 h

/-- Helper: membership in the values of an erased dictionary, when the values
are distinct and the erased key is present with value `p`. -/
theorem mem_values_dictErase (d : List (String × Nat)) (n : String) (p q : Nat)
    (hv : (d.map Prod.snd).Nodup) (hl : Dict.dictLookup d n = some p) :
    (q ∈ (Dict.dictErase d n).map Prod.snd ↔ q ∈ d.map Prod.snd ∧ q ≠ p) := by
  induction d with
  | nil => simp [Dict.dictLookup] at hl
  | cons e rest ih =>
    obtain ⟨k, v⟩ := e
    simp only [List.map_cons, List.nodup_cons] at hv
    by_cases hkn : k = n
    · have hvp : v = p := by
        rw [Dict.dictLookup, List.find?_cons_of_pos _ (by simp [hkn])] at hl
        simpa using hl
      subst hvp
      rw [Dict.dictErase, List.eraseP_cons_of_pos (by simp [hkn])]
      constructor
      · intro hq
        exact ⟨List.mem_cons_of_mem _ hq, fun hqv => hv.1 (hqv ▸ hq)⟩
      · rintro ⟨hq, hqv⟩
        rcases List.mem_cons.mp hq with h | h
        · exact absurd h hqv
        · exact h
    · have hl' : Dict.dictLookup rest n = some p := by
        rwa [Dict.dictLookup, List.find?_cons_of_neg _ (by simp [hkn])] at hl
      have hvp : v ≠ p := by
        intro hvp
        exact hv.1 (hvp ▸ mem_values_of_dictLookup rest n p hl')
      rw [Dict.dictErase, List.eraseP_cons_of_neg (by simp [hkn])]
      simp only [List.map_cons, List.mem_cons]
      rw [Dict.dictErase] at ih
      constructor
      · rintro (h | h)
        · exact ⟨Or.inl h, h ▸ hvp⟩
        · have := (ih hv.2 hl').mp h
          exact ⟨Or.inr this.1, this.2⟩
      · rintro ⟨h | h, hqp⟩
        · exact Or.inl h
        · exact Or.inr ((ih hv.2 hl').mpr ⟨h, hqp⟩)

/-- Helper: `Private::remove` does not touch the allocation counter. -/
theorem remove_nextPtr (s : Dict.Priv) (n : String) :
    (s.remove n).nextPtr = s.nextPtr := by
  rw [Dict.Priv.remove]
  cases Dict.dictLookup s.dict n <;> rfl

/-- Helper: `Private::remove` only drops entries from `list`. -/
theorem remove_list_subset (s : Dict.Priv) (n : String) :
    ∀ q ∈ (s.remove n).list, q ∈ s.list := by
  intro q hq
  rw [Dict.Priv.remove] at hq
  cases h : Dict.dictLookup s.dict n with
  | none => rw [h] at hq; exact hq
  | some p =>
      rw [h] at hq
      exact (List.mem_filter.mp hq).1

/-- Helper: `Private::remove` preserves the C8 invariant. -/
theorem remove_inv (s : Dict.Priv) (n : String) (h : Dict.Inv s) :
    Dict.Inv (s.remove n) := by
  obtain ⟨hk, hv, hl, hiff, hb⟩ := h
  rw [Dict.Priv.remove]
  cases hlook : Dict.dictLookup s.dict n with
  | none => exact ⟨hk, hv, hl, hiff, hb⟩
  | some p =>
      refine ⟨?_, ?_, ?_, ?_, ?_⟩
      · exact hk.sublist (List.Sublist.map _ (List.eraseP_sublist _))
      · exact hv.sublist (List.Sublist.map _ (List.eraseP_sublist _))
      · exact hl.sublist (List.filter_sublist _)
      · intro q
        rw [mem_values_dictErase s.dict n p q hv hlook, List.mem_filter]
        simp only [bne_iff_ne, ne_eq, decide_eq_true_eq]
        rw [hiff q]
      · intro q hq
        exact hb q ((List.filter_sublist _).mem hq)

/-- Helper: the dictionary left by `Private::remove`. -/
theorem remove_dict_char (s : Dict.Priv) (n : String) :
    (s.remove n).dict =
      if Dict.dictContains s.dict n then Dict.dictErase s.dict n else s.dict := by
  rw [Dict.Priv.remove, Dict.dictContains]
  cases Dict.dictLookup s.dict n <;> simp

/-- Helper: appending a fresh pointer under an absent name keeps the C8
invariant. -/
theorem append_core_inv (s1 : Dict.Priv) (n : String) (p : Nat)
    (h : Dict.Inv s1) (hnk : n ∉ s1.dict.map Prod.fst) (hpl : p ∉ s1.list)
    (hlt : p < s1.nextPtr) :
    Dict.Inv { s1 with dict := (n, p) :: s1.dict, list := s1.list ++ [p] } := by
  obtain ⟨hk, hv, hl, hiff, hb⟩ := h
  have hpv : p ∉ s1.dict.map Prod.snd := fun hp => hpl ((hiff p).mp hp)
  refine ⟨?_, ?_, ?_, ?_, ?_⟩
  · rw [List.map_cons, List.nodup_cons]
    exact ⟨hnk, hk⟩
  · rw [List.map_cons, List.nodup_cons]
    exact ⟨hpv, hv⟩
  · simp only [List.nodup_append, List.nodup_cons]
    exact ⟨hl, by simp, by simpa [List.disjoint_singleton] using hpl⟩
  · intro q
    simp only [List.map_cons, List.mem_cons, List.mem_append,
      List.mem_singleton]
    rw [hiff q]
    tauto
  · intro q hq
    rcases List.mem_append.mp hq with hq | hq
    · exact hb q hq
    · simpa using (List.mem_singleton.mp hq) ▸ hlt

/-- Helper: `Private::append` with a fresh pointer keeps the C8 invariant. -/
theorem append_inv (s : Dict.Priv) (n : String) (p : Nat)
    (h : Dict.Inv s) (hfresh : ∀ q ∈ s.list, q < p) (hlt : p < s.nextPtr) :
    Dict.Inv (s.append n p) := by
  have hs1 : Dict.Inv (if Dict.dictContains s.dict n then s.remove n else s) := by
    split
    · exact remove_inv s n h
    · exact h
  have hsub : ∀ q ∈ (if Dict.dictContains s.dict n then s.remove n else s).list,
      q ∈ s.list := by
    split
    · exact remove_list_subset s n
    · exact fun q hq => hq
  have hnp : (if Dict.dictContains s.dict n then s.remove n else s).nextPtr =
      s.nextPtr := by
    split
    · exact remove_nextPtr s n
    · rfl
  have hnk : n ∉ (if Dict.dictContains s.dict n then s.remove n else s).dict.map
      Prod.fst := by
    by_cases hc : Dict.dictContains s.dict n
    · rw [if_pos hc, remove_dict_char, if_pos hc]
      exact not_mem_keys_dictErase s.dict n h.1
    · rw [if_neg hc]
      intro hmem
      rcases List.mem_map.mp hmem with ⟨e, he, hen⟩
      have hnone : Dict.dictLookup s.dict n = none := by
        rw [Dict.dictContains] at hc
        cases hx : Dict.dictLookup s.dict n with
        | none => rfl
        | some q => rw [hx] at hc; simp at hc
      rw [Dict.dictLookup, Option.map_eq_none'] at hnone
      have := List.find?_eq_none.mp hnone e he
      simp [hen] at this
  have hpl : p ∉ (if Dict.dictContains s.dict n then s.remove n else s).list :=
    fun hp => lt_irrefl p (hfresh p (hsub p hp))
  rw [Dict.Priv.append]
  exact append_core_inv _ n p hs1 hnk hpl (by rw [hnp]; exact hlt)

/-- Helper: raising the allocation counter keeps the C8 invariant. -/
theorem inv_bump (s : Dict.Priv) (h : Dict.Inv s) :
    Dict.Inv { s with nextPtr := s.nextPtr + 1 } := by
  obtain ⟨hk, hv, hl, hiff, hb⟩ := h
  exact ⟨hk, hv, hl, hiff, fun q hq => Nat.lt_succ_of_lt (hb q hq)⟩

/-- Helper: `Iconset::setIcon` keeps the C8 invariant. -/
theorem setIcon_inv (s : Dict.Priv) (n : String) (h : Dict.Inv s) :
    Dict.Inv (s.setIcon n) := by
  rw [Dict.Priv.setIcon, Dict.Priv.alloc]
  refine append_inv _ n s.nextPtr (remove_inv _ n (inv_bump s h)) ?_ ?_
  · intro q hq
    have hq2 : q ∈ s.list :=
      remove_list_subset { s with nextPtr := s.nextPtr + 1 } n q hq
    exact h.2.2.2.2 q hq2
  · rw [remove_nextPtr]
    exact Nat.lt_succ_self _

/-- Helper: `Iconset::operator+=` keeps the C8 invariant. -/
theorem addSet_inv (names : List String) (s : Dict.Priv) (h : Dict.Inv s) :
    Dict.Inv (s.addSet names) := by
  induction names generalizing s with
  | nil => simpa [Dict.Priv.addSet] using h
  | cons n rest ih =>
    rw [Dict.Priv.addSet, List.foldl_cons]
    have hstep : Dict.Inv
        (({ s with nextPtr := s.nextPtr + 1 } : Dict.Priv).append n s.nextPtr) := by
      refine append_inv _ n s.nextPtr (inv_bump s h) ?_ ?_
      · exact h.2.2.2.2
      · exact Nat.lt_succ_self _
    have := ih _ hstep
    rw [Dict.Priv.addSet] at this
    simpa [Dict.Priv.alloc] using this

/-- Helper: `Iconset::clear` keeps the C8 invariant. -/
theorem clear_inv (s : Dict.Priv) (h : Dict.Inv s) : Dict.Inv s.clear := by
  refine ⟨by simp [Dict.Priv.clear], by simp [Dict.Priv.clear],
    by simp [Dict.Priv.clear], by simp [Dict.Priv.clear],
    by simp [Dict.Priv.clear]⟩

/-- Helper: every mutation sequence keeps the C8 invariant. -/
theorem runSet_inv (ops : List Dict.SetOp) (s : Dict.Priv) (h : Dict.Inv s) :
    Dict.Inv (Dict.runSet s ops) := by
  induction ops generalizing s with
  | nil => simpa [Dict.runSet] using h
  | cons op rest ih =>
    cases op with
    | setIcon n => exact ih _ (setIcon_inv s n h)
    | removeIcon n => exact ih _ (remove_inv s n h)
    | addSet names => exact ih _ (addSet_inv names s h)
    | clear => exact ih _ (clear_inv s h)

/-- Claim C8: after any sequence of `setIcon`, `removeIcon`, `operator+=` and
`clear` calls on an initially empty iconset, the icon names are unique and the
dictionary and the ordered list hold exactly the same icons, each once. -/
theorem iconset_dict_list_consistent (ops : List Dict.SetOp) :
    ((Dict.runSet Dict.Priv.empty ops).dict.map Prod.fst).Nodup ∧
    (Dict.runSet Dict.Priv.empty ops).list.Nodup ∧
    (∀ p, p ∈ (Dict.runSet Dict.Priv.empty ops).dict.map Prod.snd ↔
        p ∈ (Dict.runSet Dict.Priv.empty ops).list) := by
  have h0 : Dict.Inv Dict.Priv.empty := by
    refine ⟨by simp [Dict.Priv.empty], by simp [Dict.Priv.empty],
      by simp [Dict.Priv.empty], by simp [Dict.Priv.empty],
      by simp [Dict.Priv.empty]⟩
  obtain ⟨hk, hv, hl, hiff, hb⟩ := runSet_inv ops Dict.Priv.empty h0
  exact ⟨hk, hl, hiff⟩

/-- Helper: a successful lookup is a membership. -/
theorem alist_lookup_mem {β : Type} (m : List (Nat × β)) (k : Nat) (v : β)
    (h : AMap.lookup m k = some v) : (k, v) ∈ m := by
  induction m with
  | nil => simp [AMap.lookup] at h
  | cons e rest ih =>
    obtain ⟨a, b⟩ := e
    by_cases hk : a = k
    · rw [AMap.lookup, if_pos (by simp [hk])] at h
      have hv : b = v := by simpa using h
      subst hk
      subst hv
      exact List.mem_cons_self _ _
    · rw [AMap.lookup, if_neg (by simp [hk])] at h
      exact List.mem_cons_of_mem _ (ih h)

/-- Helper: lookup after deleting the same key. -/
theorem alist_lookup_eraseKey_self {β : Type} (m : List (Nat × β)) (k : Nat) :
    AMap.lookup (AMap.eraseKey m k) k = none := by
  induction m with
  | nil => rfl
  | cons e rest ih =>
    by_cases hk : e.1 = k
    · rw [AMap.eraseKey, if_pos (by simp [hk])]
      exact ih
    · rw [AMap.eraseKey, if_neg (by simp [hk]), AMap.lookup,
        if_neg (by simp [hk])]
      exact ih

/-- Helper: lookup after deleting a different key. -/
theorem alist_lookup_eraseKey_ne {β : Type} (m : List (Nat × β)) (k j : Nat)
    (hkj : k ≠ j) : AMap.lookup (AMap.eraseKey m k) j = AMap.lookup m j := by
  induction m with
  | nil => rfl
  | cons e rest ih =>
    by_cases hk : e.1 = k
    · have hj : ¬ e.1 = j := fun h => hkj (hk ▸ h)
      rw [AMap.eraseKey, if_pos (by simp [hk]), AMap.lookup,
        if_neg (by simp [hj])]
      exact ih
    · rw [AMap.eraseKey, if_neg (by simp [hk]), AMap.lookup, AMap.lookup]
      by_cases hj : e.1 = j
      · rw [if_pos (by simp [hj]), if_pos (by simp [hj])]
      · rw [if_neg (by simp [hj]), if_neg (by simp [hj])]
        exact ih

/-- Helper: lookup after updating the same key. -/
theorem alist_lookup_update_self {β : Type} (m : List (Nat × β)) (k : Nat)
    (f : β → β) : AMap.lookup (AMap.update m k f) k = (AMap.lookup m k).map f := by
  induction m with
  | nil => rfl
  | cons e rest ih =>
    by_cases hk : e.1 = k
    · rw [AMap.update, if_pos (by simp [hk]), AMap.lookup, if_pos (by simp [hk]),
        AMap.lookup, if_pos (by simp [hk])]
      rfl
    · rw [AMap.update, if_neg (by simp [hk]), AMap.lookup, if_neg (by simp [hk]),
        AMap.lookup, if_neg (by simp [hk])]
      exact ih

/-- Helper: lookup after updating a different key. -/
theorem alist_lookup_update_ne {β : Type} (m : List (Nat × β)) (k j : Nat)
    (f : β → β) (hkj : k ≠ j) :
    AMap.lookup (AMap.update m k f) j = AMap.lookup m j := by
  induction m with
  | nil => rfl
  | cons e rest ih =>
    by_cases hk : e.1 = k
    · have hj : ¬ e.1 = j := fun h => hkj (hk ▸ h)
      rw [AMap.update, if_pos (by simp [hk]), AMap.lookup, if_neg (by simp [hk, hkj]),
        AMap.lookup, if_neg (by simp [hj])]
      exact ih
    · rw [AMap.update, if_neg (by simp [hk]), AMap.lookup, AMap.lookup]
      by_cases hj : e.1 = j
      · rw [if_pos (by simp [hj]), if_pos (by simp [hj])]
      · rw [if_neg (by simp [hj]), if_neg (by simp [hj])]
        exact ih

/-- Helper: `derefDelete` touches no other datum. -/
theorem derefDelete_lookup_ne (h : List (Nat × Nat)) (d k : Nat) (hdk : d ≠ k) :
    AMap.lookup (RefCount.derefDelete h d) k = AMap.lookup h k := by
  cases hx : AMap.lookup h d with
  | none => simp only [RefCount.derefDelete, hx]
  | some c =>
      simp only [RefCount.derefDelete, hx]
      by_cases hc : c - 1 = 0
      · rw [if_pos hc]
        exact alist_lookup_eraseKey_ne h d k hdk
      · rw [if_neg hc]
        exact alist_lookup_update_ne h d k _ hdk

/-- Helper: `derefDelete` on a live datum, explicitly. -/
theorem derefDelete_some (h : List (Nat × Nat)) (d c : Nat)
    (hc : AMap.lookup h d = some c) :
    RefCount.derefDelete h d =
      if c - 1 = 0 then AMap.eraseKey h d else AMap.setVal h d (c - 1) := by
  rw [RefCount.derefDelete, hc]

/-- Helper: an object referring to `d` makes `referrers` positive. -/
theorem referrers_pos (w : RefCount.World) (o d : Nat)
    (h : AMap.lookup w.objs o = some d) : 1 ≤ RefCount.referrers w d := by
  have hmem : (o, d) ∈ w.objs := alist_lookup_mem _ _ _ h
  have : (o, d) ∈ w.objs.filter (fun e => e.2 == d) :=
    List.mem_filter.mpr ⟨hmem, by simp⟩
  have hne := List.ne_nil_of_mem this
  rw [RefCount.referrers]
  exact List.length_pos.mpr hne

/-- Helper: in a well-formed world, a stored count is the referrer count. -/
theorem count_eq_referrers (w : RefCount.World) (hw : RefCount.Wf w)
    (d c : Nat) (h : AMap.lookup w.heap d = some c) :
    c = RefCount.referrers w d :=
  hw.2.2.2 (d, c) (alist_lookup_mem _ _ _ h)

/-- Helper: in a well-formed world, every referenced datum is live. -/
theorem live_of_obj (w : RefCount.World) (hw : RefCount.Wf w) (o d : Nat)
    (h : AMap.lookup w.objs o = some d) :
    ∃ c, AMap.lookup w.heap d = some c := by
  have := hw.2.2.1 (o, d) (alist_lookup_mem _ _ _ h)
  cases hx : AMap.lookup w.heap d with
  | none => rw [hx] at this; simp at this
  | some c => exact ⟨c, rfl⟩

/-- Claim C3: in a well-formed world, (i) copy construction shares the source
object's `Private` and increments its count to one more than its referrer
count; (ii) destroying an object deletes the shared data exactly when that
object was the last one referring to it; (iii) assignment releases the target
object's old data — deleting it exactly when the target was its last referrer
— and adopts and `ref()`s the source's data. -/
theorem iconset_refcount_semantics (w : RefCount.World) (hw : RefCount.Wf w) :
    (∀ o src d, AMap.lookup w.objs src = some d →
        AMap.lookup (RefCount.copyConstruct w o src).objs o = some d ∧
        AMap.lookup (RefCount.copyConstruct w o src).heap d =
          some (RefCount.referrers w d + 1)) ∧
    (∀ o d, AMap.lookup w.objs o = some d →
        (AMap.lookup (RefCount.destruct w o).heap d = none ↔
          RefCount.referrers w d = 1)) ∧
    (∀ o src dOld dNew, AMap.lookup w.objs o = some dOld →
        AMap.lookup w.objs src = some dNew → dOld ≠ dNew →
        ((AMap.lookup (RefCount.assign w o src).heap dOld = none ↔
            RefCount.referrers w dOld = 1) ∧
          AMap.lookup (RefCount.assign w o src).heap dNew =
            some (RefCount.referrers w dNew + 1) ∧
          AMap.lookup (RefCount.assign w o src).objs o = some dNew)) := by
  refine ⟨?_, ?_, ?_⟩
  · intro o src d hsrc
    obtain ⟨c, hc⟩ := live_of_obj w hw src d hsrc
    have hcr : c = RefCount.referrers w d := count_eq_referrers w hw d c hc
    simp only [RefCount.copyConstruct, hsrc]
    constructor
    · rw [AMap.lookup, if_pos (by simp)]
    · rw [RefCount.refData, alist_lookup_update_self, hc, hcr]
      rfl
  · intro o d hobj
    obtain ⟨c, hc⟩ := live_of_obj w hw o d hobj
    have hcr : c = RefCount.referrers w d := count_eq_referrers w hw d c hc
    have hpos : 1 ≤ RefCount.referrers w d := referrers_pos w o d hobj
    simp only [RefCount.destruct, hobj, RefCount.derefDelete, hc]
    by_cases h1 : c - 1 = 0
    · rw [if_pos h1, alist_lookup_eraseKey_self]
      simp only [true_iff]
      omega
    · rw [if_neg h1, AMap.setVal, alist_lookup_update_self, hc]
      simp only [Option.map_some']
      constructor
      · intro hx
        exact absurd hx (by simp)
      · intro hx
        omega
  · intro o src dOld dNew hobj hsrc hne
    obtain ⟨cO, hcO⟩ := live_of_obj w hw o dOld hobj
    obtain ⟨cN, hcN⟩ := live_of_obj w hw src dNew hsrc
    have hcrO : cO = RefCount.referrers w dOld :=
      count_eq_referrers w hw dOld cO hcO
    have hcrN : cN = RefCount.referrers w dNew :=
      count_eq_referrers w hw dNew cN hcN
    have hposO : 1 ≤ RefCount.referrers w dOld := referrers_pos w o dOld hobj
    simp only [RefCount.assign, hobj, hsrc]
    refine ⟨?_, ?_, ?_⟩
    · rw [RefCount.refData, alist_lookup_update_ne _ _ _ _ (Ne.symm hne),
        derefDelete_some _ _ _ hcO]
      by_cases h1 : cO - 1 = 0
      · rw [if_pos h1, alist_lookup_eraseKey_self]
        simp only [true_iff]
        omega
      · rw [if_neg h1, AMap.setVal, alist_lookup_update_self, hcO]
        simp only [Option.map_some']
        constructor
        · intro hx
          exact absurd hx (by simp)
        · intro hx
          omega
    · rw [RefCount.refData, alist_lookup_update_self,
        derefDelete_lookup_ne _ _ _ hne, hcN, hcrN]
      rfl
    · rw [AMap.setVal, alist_lookup_update_self, hobj]
      rfl

/-- Witness for C3: two objects (10 and 11) share datum 0 with count 2; a
third object 12 owns datum 1.  Destroying object 10 does not delete datum 0
(object 11 still refers to it). -/
theorem iconset_refcount_semantics_witness :
    (AMap.lookup (RefCount.destruct
        ⟨[(0, 2), (1, 1)], [(10, 0), (11, 0), (12, 1)]⟩ 10).heap 0 = none ↔
      RefCount.referrers ⟨[(0, 2), (1, 1)], [(10, 0), (11, 0), (12, 1)]⟩ 0 = 1) :=
  (iconset_refcount_semantics ⟨[(0, 2), (1, 1)], [(10, 0), (11, 0), (12, 1)]⟩
    (by decide)).2.1 10 0 (by decide)

/-- Counterexample for C4 as stated: objects 1 and 2 share the `Private` at
0; `setInfo` through object 1 changes what object 2 observes, because
`Iconset::setInfo` mutates without detaching. -/
theorem setInfo_changes_sharing_object :
    Cow.view (Cow.setInfo ⟨[(0, ⟨2, [("n", 7)], [("k", "x")], "f"⟩)],
        [(1, 0), (2, 0)], 1⟩ 1 [("k", "y")]) 2 ≠
      Cow.view ⟨[(0, ⟨2, [("n", 7)], [("k", "x")], "f"⟩)], [(1, 0), (2, 0)], 1⟩ 2 := by
  decide

/-- Helper: `Option.or` against `some` under `getD`. -/
theorem option_or_some_getD {α : Type} (a : Option α) (t s : α) :
    (a.or (some t)).getD s = a.getD t := by
  cases a <;> rfl

/-- Helper: `Option.or` against `none`. -/
theorem option_or_none {α : Type} (a : Option α) : a.or none = a := by
  cases a <;> rfl

/-- Helper: the last matching child of `i :: rest`. -/
theorem lastTagText_cons (tag : String) (i : Load.QDomElement)
    (rest : List Load.QDomElement) :
    Load.lastTagText tag (i :: rest) =
      (Load.lastTagText tag rest).or
        (if i.tagName == tag then some i.text else none) := by
  rw [Load.lastTagText, Load.lastTagText, List.reverse_cons, find?_append_or]
  have hsing : List.find? (fun e => e.tagName == tag) [i] =
      (if i.tagName == tag then some i else none) := by
    by_cases h : i.tagName == tag <;> simp [h]
  rw [hsing]
  cases rest.reverse.find? (fun e => e.tagName == tag) <;>
    by_cases h : i.tagName == tag <;> simp [h, Option.or]

/-- Helper: the `name` field after one `loadMeta` step. -/
theorem loadMetaStep_name (st : Load.Private) (i : Load.QDomElement) :
    (Load.loadMetaStep st i).name =
      if i.tagName == "name" then i.text else st.name := by
  simp only [Load.loadMetaStep]
  split_ifs <;> rfl

/-- Helper: the `version` field after one `loadMeta` step. -/
theorem loadMetaStep_version (st : Load.Private) (i : Load.QDomElement) :
    (Load.loadMetaStep st i).version =
      if i.tagName == "version" then i.text else st.version := by
  simp only [Load.loadMetaStep]
  split_ifs with h1 h2 <;> first
    | rfl
    | (exfalso; rw [beq_iff_eq] at h1 h2; rw [h1] at h2; exact absurd h2 (by decide))

/-- Helper: the `description` field after one `loadMeta` step. -/
theorem loadMetaStep_description (st : Load.Private) (i : Load.QDomElement) :
    (Load.loadMetaStep st i).description =
      if i.tagName == "description" then i.text else st.description := by
  simp only [Load.loadMetaStep]
  split_ifs with h1 h2 h3 <;> first
    | rfl
    | (exfalso
       rw [beq_iff_eq] at *
       simp_all)

/-- Helper: the `creation` field after one `loadMeta` step. -/
theorem loadMetaStep_creation (st : Load.Private) (i : Load.QDomElement) :
    (Load.loadMetaStep st i).creation =
      if i.tagName == "creation" then i.text else st.creation := by
  simp only [Load.loadMetaStep]
  split_ifs with h1 h2 h3 h4 h5 <;> first
    | rfl
    | (exfalso
       rw [beq_iff_eq] at *
       simp_all)

/-- Helper: the `homeUrl` field after one `loadMeta` step. -/
theorem loadMetaStep_homeUrl (st : Load.Private) (i : Load.QDomElement) :
    (Load.loadMetaStep st i).homeUrl =
      if i.tagName == "home" then i.text else st.homeUrl := by
  simp only [Load.loadMetaStep]
  split_ifs with h1 h2 h3 h4 h5 h6 <;> first
    | rfl
    | (exfalso
       rw [beq_iff_eq] at *
       simp_all)

/-- Helper: the `authors` field after one `loadMeta` step. -/
theorem loadMetaStep_authors (st : Load.Private) (i : Load.QDomElement) :
    (Load.loadMetaStep st i).authors =
      st.authors ++
        (if i.tagName == "author" then [Load.authorEntry i] else []) := by
  simp only [Load.loadMetaStep]
  split_ifs <;> simp_all

/-- Helper: `loadMeta` steps do not touch `filename`, `info` or the icon
count. -/
theorem loadMetaStep_keeps (st : Load.Private) (i : Load.QDomElement) :
    (Load.loadMetaStep st i).filename = st.filename ∧
    (Load.loadMetaStep st i).info = st.info ∧
    (Load.loadMetaStep st i).iconsLoaded = st.iconsLoaded := by
  simp only [Load.loadMetaStep]
  split_ifs <;> exact ⟨rfl, rfl, rfl⟩

/-- Helper: the `name` field over the whole `loadMeta` loop. -/
theorem loadMeta_fold_name (l : List Load.QDomElement) (st : Load.Private) :
    (l.foldl Load.loadMetaStep st).name =
      (Load.lastTagText "name" l).getD st.name := by
  induction l generalizing st with
  | nil => simp [Load.lastTagText]
  | cons i rest ih =>
    rw [List.foldl_cons, ih, lastTagText_cons, loadMetaStep_name]
    by_cases h : i.tagName == "name"
    · rw [if_pos h, if_pos h, option_or_some_getD]
    · rw [if_neg h, if_neg h, option_or_none]

/-- Helper: the `version` field over the whole `loadMeta` loop. -/
theorem loadMeta_fold_version (l : List Load.QDomElement) (st : Load.Private) :
    (l.foldl Load.loadMetaStep st).version =
      (Load.lastTagText "version" l).getD st.version := by
  induction l generalizing st with
  | nil => simp [Load.lastTagText]
  | cons i rest ih =>
    rw [List.foldl_cons, ih, lastTagText_cons, loadMetaStep_version]
    by_cases h : i.tagName == "version"
    · rw [if_pos h, if_pos h, option_or_some_getD]
    · rw [if_neg h, if_neg h, option_or_none]

/-- Helper: the `description` field over the whole `loadMeta` loop. -/
theorem loadMeta_fold_description (l : List Load.QDomElement) (st : Load.Private) :
    (l.foldl Load.loadMetaStep st).description =
      (Load.lastTagText "description" l).getD st.description := by
  induction l generalizing st with
  | nil => simp [Load.lastTagText]
  | cons i rest ih =>
    rw [List.foldl_cons, ih, lastTagText_cons, loadMetaStep_description]
    by_cases h : i.tagName == "description"
    · rw [if_pos h, if_pos h, option_or_some_getD]
    · rw [if_neg h, if_neg h, option_or_none]

/-- Helper: the `creation` field over the whole `loadMeta` loop. -/
theorem loadMeta_fold_creation (l : List Load.QDomElement) (st : Load.Private) :
    (l.foldl Load.loadMetaStep st).creation =
      (Load.lastTagText "creation" l).getD st.creation := by
  induction l generalizing st with
  | nil => simp [Load.lastTagText]
  | cons i rest ih =>
    rw [List.foldl_cons, ih, lastTagText_cons, loadMetaStep_creation]
    by_cases h : i.tagName == "creation"
    · rw [if_pos h, if_pos h, option_or_some_getD]
    · rw [if_neg h, if_neg h, option_or_none]

/-- Helper: the `homeUrl` field over the whole `loadMeta` loop. -/
theorem loadMeta_fold_homeUrl (l : List Load.QDomElement) (st : Load.Private) :
    (l.foldl Load.loadMetaStep st).homeUrl =
      (Load.lastTagText "home" l).getD st.homeUrl := by
  induction l generalizing st with
  | nil => simp [Load.lastTagText]
  | cons i rest ih =>
    rw [List.foldl_cons, ih, lastTagText_cons, loadMetaStep_homeUrl]
    by_cases h : i.tagName == "home"
    · rw [if_pos h, if_pos h, option_or_some_getD]
    · rw [if_neg h, if_neg h, option_or_none]

/-- Helper: the `authors` field over the whole `loadMeta` loop. -/
theorem loadMeta_fold_authors (l : List Load.QDomElement) (st : Load.Private) :
    (l.foldl Load.loadMetaStep st).authors =
      st.authors ++
        (l.filter (fun e => e.tagName == "author")).map Load.authorEntry := by
  induction l generalizing st with
  | nil => simp
  | cons i rest ih =>
    rw [List.foldl_cons, ih, loadMetaStep_authors]
    by_cases h : i.tagName == "author"
    · rw [if_pos h, List.filter_cons_of_pos (by simpa using h), List.map_cons,
        List.append_assoc]
      rfl
    · rw [if_neg h, List.filter_cons_of_neg (by simpa using h), List.append_nil]

/-- Helper: the `loadMeta` loop does not touch `filename`, `info` or the icon
count. -/
theorem loadMeta_fold_keeps (l : List Load.QDomElement) (st : Load.Private) :
    (l.foldl Load.loadMetaStep st).filename = st.filename ∧
    (l.foldl Load.loadMetaStep st).info = st.info ∧
    (l.foldl Load.loadMetaStep st).iconsLoaded = st.iconsLoaded := by
  induction l generalizing st with
  | nil => exact ⟨rfl, rfl, rfl⟩
  | cons i rest ih =>
    rw [List.foldl_cons]
    obtain ⟨hf, hi, hl⟩ := ih (Load.loadMetaStep st i)
    obtain ⟨hf2, hi2, hl2⟩ := loadMetaStep_keeps st i
    exact ⟨hf.trans hf2, hi.trans hi2, hl.trans hl2⟩

/-- Claim C6: parsing a `meta` element sets the iconset name, version,
description, creation date and home URL from the child elements tagged
`name`, `version`, `description`, `creation` and `home` (the last such child
winning, the old value surviving when there is none), appends one author
entry per child tagged `author`, and the accessors `name()`, `version()`,
`description()`, `creation()`, `homeUrl()` and `authors()` return exactly
these values. -/
theorem loadMeta_sets_meta_fields (st : Load.Private) (i : Load.QDomElement) :
    Load.Iconset.name (Load.loadMeta st i) =
      (Load.lastTagText "name" i.children).getD st.name ∧
    Load.Iconset.version (Load.loadMeta st i) =
      (Load.lastTagText "version" i.children).getD st.version ∧
    Load.Iconset.description (Load.loadMeta st i) =
      (Load.lastTagText "description" i.children).getD st.description ∧
    Load.Iconset.creation (Load.loadMeta st i) =
      (Load.lastTagText "creation" i.children).getD st.creation ∧
    Load.Iconset.homeUrl (Load.loadMeta st i) =
      (Load.lastTagText "home" i.children).getD st.homeUrl ∧
    Load.Iconset.authors (Load.loadMeta st i) =
      st.authors ++
        (i.children.filter (fun e => e.tagName == "author")).map
          Load.authorEntry :=
  ⟨loadMeta_fold_name i.children st, loadMeta_fold_version i.children st,
    loadMeta_fold_description i.children st, loadMeta_fold_creation i.children st,
    loadMeta_fold_homeUrl i.children st, loadMeta_fold_authors i.children st⟩

/-- Helper: success after one `Private::load` child step: only an `icon`
child can clear it. -/
theorem privLoadStep_fst (env : Load.Env) (dir : String) (b : Bool)
    (st : Load.Private) (i : Load.QDomElement) :
    (Load.privLoadStep env dir (b, st) i).1 =
      (b && (!(i.tagName == "icon") || env.loadIconOk i dir)) := by
  simp only [Load.privLoadStep]
  split_ifs with h1 h2 h3 <;> simp_all

/-- Helper: `Private::load` child steps do not touch `filename`. -/
theorem privLoadStep_filename (env : Load.Env) (dir : String)
    (acc : Bool × Load.Private) (i : Load.QDomElement) :
    (Load.privLoadStep env dir acc i).2.filename = acc.2.filename := by
  simp only [Load.privLoadStep]
  split_ifs <;>
    first
      | rfl
      | exact (loadMeta_fold_keeps i.children acc.2).1

/-- Helper: success over the whole `Private::load` child loop. -/
theorem privLoad_fold_fst (env : Load.Env) (dir : String)
    (l : List Load.QDomElement) (b : Bool) (st : Load.Private) :
    (l.foldl (Load.privLoadStep env dir) (b, st)).1 =
      (b && l.all (fun e => !(e.tagName == "icon") || env.loadIconOk e dir)) := by
  induction l generalizing b st with
  | nil => simp
  | cons i rest ih =>
    rw [List.foldl_cons, List.all_cons]
    have hpair : Load.privLoadStep env dir (b, st) i =
        ((Load.privLoadStep env dir (b, st) i).1,
          (Load.privLoadStep env dir (b, st) i).2) := rfl
    rw [hpair, ih, privLoadStep_fst, Bool.and_assoc]

/-- Helper: `filename` over the whole `Private::load` child loop. -/
theorem privLoad_fold_filename (env : Load.Env) (dir : String)
    (l : List Load.QDomElement) (acc : Bool × Load.Private) :
    (l.foldl (Load.privLoadStep env dir) acc).2.filename = acc.2.filename := by
  induction l generalizing acc with
  | nil => rfl
  | cons i rest ih =>
    rw [List.foldl_cons]
    exact (ih _).trans (privLoadStep_filename env dir acc i)

/-- Helper: `Private::load` succeeds exactly when the document element is
`icondef` and every `icon` child loads. -/
theorem privLoad_fst_iff (env : Load.Env) (st : Load.Private)
    (doc : Load.QDomDocument) (dir : String) :
    ((Load.privLoad env st doc dir).1 = true ↔
      (doc.documentElement.tagName = "icondef" ∧
        ∀ e ∈ doc.documentElement.children,
          e.tagName = "icon" → env.loadIconOk e dir = true)) := by
  rw [Load.privLoad]
  by_cases h : doc.documentElement.tagName == "icondef"
  · rw [if_neg (by simp [bne, h]), privLoad_fold_fst, Bool.true_and]
    rw [beq_iff_eq] at h
    rw [List.all_eq_true]
    constructor
    · intro hall
      refine ⟨h, ?_⟩
      intro e he hei
      have := hall e he
      rwa [hei, beq_self_eq_true, Bool.not_true, Bool.false_or] at this
    · rintro ⟨-, hall⟩
      intro e he
      by_cases hei : e.tagName = "icon"
      · rw [hei, beq_self_eq_true, Bool.not_true, Bool.false_or]
        exact hall e he hei
      · rw [(by simp [hei] : (e.tagName == "icon") = false)]
        rfl
  · rw [if_pos (by simpa using h)]
    simp only [Bool.false_eq_true, false_iff, not_and]
    intro hh
    rw [beq_iff_eq] at h
    exact absurd hh h

/-- Helper: `Private::load` never touches `filename`. -/
theorem privLoad_filename (env : Load.Env) (st : Load.Private)
    (doc : Load.QDomDocument) (dir : String) :
    (Load.privLoad env st doc dir).2.filename = st.filename := by
  rw [Load.privLoad]
  split
  · rfl
  · exact privLoad_fold_filename env dir _ _

/-- Claim C2: `Iconset::load(dir)` (with `dir` a directory or a
`.zip`/`.jisp` archive read through `loadData`) returns true exactly when
`icondef.xml` can be read from `dir` with non-empty content, that content
parses, the document element is tagged `icondef` and every `icon` child
loads; and exactly on that success path it records `dir` as `fileName()`. -/
theorem iconset_load_success_iff (env : Load.Env) (st : Load.Private)
    (dir : String) :
    ((Load.load env st dir).1 = true ↔
      (Load.loadData env "icondef.xml" dir ≠ [] ∧
        ∃ doc, env.setContent (Load.loadData env "icondef.xml" dir) = some doc ∧
          doc.documentElement.tagName = "icondef" ∧
          ∀ e ∈ doc.documentElement.children,
            e.tagName = "icon" → env.loadIconOk e dir = true)) ∧
    Load.Iconset.fileName (Load.load env st dir).2 =
      (if (Load.load env st dir).1 then dir else Load.Iconset.fileName st) := by
  by_cases hba : (Load.loadData env "icondef.xml" dir).isEmpty
  · have hload : Load.load env st dir = (false, st) := by
      rw [Load.load, if_pos hba]
    rw [hload]
    refine ⟨?_, rfl⟩
    simp only [Bool.false_eq_true, false_iff, not_and]
    intro hne
    exact absurd (List.isEmpty_iff.mp hba) hne
  · cases hdoc : env.setContent (Load.loadData env "icondef.xml" dir) with
    | none =>
        have hload : Load.load env st dir = (false, st) := by
          rw [Load.load, if_neg hba, hdoc]
        rw [hload]
        refine ⟨?_, rfl⟩
        simp only [Bool.false_eq_true, false_iff, not_and]
        intro hne
        rintro ⟨doc, hd, -⟩
        exact absurd hd (by simp)
    | some doc =>
        cases hr : (Load.privLoad env st doc dir).1 with
        | true =>
            have hload : Load.load env st dir =
                (true, { (Load.privLoad env st doc dir).2 with filename := dir }) := by
              rw [Load.load, if_neg hba, hdoc]
              simp only [hr, if_true]
            rw [hload]
            constructor
            · simp only [true_iff]
              refine ⟨by simpa using hba, doc, rfl, ?_⟩
              exact (privLoad_fst_iff env st doc dir).mp hr
            · rfl
        | false =>
            have hload : Load.load env st dir =
                (false, (Load.privLoad env st doc dir).2) := by
              rw [Load.load, if_neg hba, hdoc]
              simp only [hr, Bool.false_eq_true, if_false]
            rw [hload]
            constructor
            · simp only [Bool.false_eq_true, false_iff, not_and]
              intro hne
              rintro ⟨doc2, hd2, hcond⟩
              have hdd : doc = doc2 := by
                injection hd2
              rw [← hdd] at hcond
              have hmp := (privLoad_fst_iff env st doc dir).mpr hcond
              rw [hr] at hmp
              exact absurd hmp (by simp)
            · simp only [Bool.false_eq_true, if_false]
              exact privLoad_filename env st doc dir

/-- Witness for C2: the `fileName` equation at the concrete environment. -/
theorem iconset_load_success_iff_witness :
    Load.Iconset.fileName (Load.load envW Load.Private.init "d").2 =
      (if (Load.load envW Load.Private.init "d").1 then "d"
       else Load.Iconset.fileName Load.Private.init) :=
  (iconset_load_success_iff envW Load.Private.init "d").2

/-- Witness for C6: a `meta` element with one `name` child. -/
theorem loadMeta_sets_meta_fields_witness :
    Load.Iconset.name (Load.loadMeta Load.Private.init
        (Load.QDomElement.mk "meta" "" []
          [Load.QDomElement.mk "name" "Crystal" [] []])) =
      (Load.lastTagText "name"
        (Load.QDomElement.mk "meta" "" []
          [Load.QDomElement.mk "name" "Crystal" [] []]).children).getD
        Load.Private.init.name :=
  (loadMeta_sets_meta_fields Load.Private.init
    (Load.QDomElement.mk "meta" "" []
      [Load.QDomElement.mk "name" "Crystal" [] []])).1

/-- Witness for C8: name uniqueness after a concrete mutation sequence. -/
theorem iconset_dict_list_consistent_witness :
    ((Dict.runSet Dict.Priv.empty
        [Dict.SetOp.setIcon "a", Dict.SetOp.setIcon "a",
          Dict.SetOp.addSet ["a", "b"]]).dict.map Prod.fst).Nodup :=
  (iconset_dict_list_consistent
    [Dict.SetOp.setIcon "a", Dict.SetOp.setIcon "a",
      Dict.SetOp.addSet ["a", "b"]]).1

/-- Helper: a detaching mutator copies the shared `Private` first, so the
view through any other object sharing the data is unchanged, while the
caller observes its write applied to the copy. -/
theorem share_detachThenMutate_view {σ : Type} (w : Share.World σ)
    (o o' d : Nat) (p : Share.Priv σ) (cp f : σ → σ)
    (hoo : o ≠ o')
    (ho : AMap.lookup w.objs o = some d)
    (ho' : AMap.lookup w.objs o' = some d)
    (hd : AMap.lookup w.heap d = some p)
    (hc : 2 ≤ p.count)
    (hfresh : AMap.lookup w.heap w.nextData = none) :
    Share.view (Share.detachThenMutate w o cp f) o' = Share.view w o' ∧
    Share.view (Share.detachThenMutate w o cp f) o =
      some (f (cp p.content)) := by
  have hdn : d ≠ w.nextData := by
    intro h
    rw [h, hfresh] at hd
    exact absurd hd (by simp)
  have hdet : Share.detach w o cp =
      ⟨(w.nextData, ⟨1, cp p.content⟩) ::
          AMap.setVal w.heap d ⟨p.count - 1, p.content⟩,
        AMap.setVal w.objs o w.nextData, w.nextData + 1⟩ := by
    simp only [Share.detach, ho, hd]
    rw [if_pos (by omega : 1 < p.count)]
  have hlo : AMap.lookup (AMap.setVal w.objs o w.nextData) o =
      some w.nextData := by
    rw [AMap.setVal, alist_lookup_update_self, ho]
    rfl
  have hlo' : AMap.lookup (AMap.setVal w.objs o w.nextData) o' = some d := by
    rw [AMap.setVal, alist_lookup_update_ne _ _ _ _ hoo, ho']
  have hmut : Share.detachThenMutate w o cp f =
      { heap := AMap.update
          ((w.nextData, ⟨1, cp p.content⟩) ::
            AMap.setVal w.heap d ⟨p.count - 1, p.content⟩)
          w.nextData (fun q => ⟨q.count, f q.content⟩),
        objs := AMap.setVal w.objs o w.nextData,
        nextData := w.nextData + 1 } := by
    rw [Share.detachThenMutate, hdet]
    simp only [Share.mutate, hlo]
  have hheadup : AMap.update
      ((w.nextData, (⟨1, cp p.content⟩ : Share.Priv σ)) ::
        AMap.setVal w.heap d ⟨p.count - 1, p.content⟩)
      w.nextData (fun q => ⟨q.count, f q.content⟩) =
      (w.nextData, (⟨1, f (cp p.content)⟩ : Share.Priv σ)) ::
        AMap.update (AMap.setVal w.heap d ⟨p.count - 1, p.content⟩)
          w.nextData (fun q => ⟨q.count, f q.content⟩) := by
    rw [AMap.update, if_pos (by simp)]
  constructor
  · rw [hmut, Share.view, Share.view, ho']
    simp only [hlo']
    rw [hheadup, AMap.lookup, if_neg (by simp [hdn.symm]),
      alist_lookup_update_ne _ _ _ _ (Ne.symm hdn),
      AMap.setVal, alist_lookup_update_self, hd]
    rfl
  · rw [hmut, Share.view]
    simp only [hlo]
    rw [hheadup, AMap.lookup, if_pos (by simp)]
    rfl

/-- Helper: an in-place write to a shared `Private` is observed through
every object sharing the data. -/
theorem share_mutate_view {σ : Type} (w : Share.World σ) (o o' d : Nat)
    (p : Share.Priv σ) (f : σ → σ)
    (ho : AMap.lookup w.objs o = some d)
    (ho' : AMap.lookup w.objs o' = some d)
    (hd : AMap.lookup w.heap d = some p) :
    Share.view (Share.mutate w o f) o' = some (f p.content) := by
  have hmut : Share.mutate w o f =
      { w with
        heap := AMap.update w.heap d (fun q => ⟨q.count, f q.content⟩) } := by
    simp only [Share.mutate, ho]
  rw [hmut, Share.view]
  simp only [ho']
  rw [alist_lookup_update_self, hd]
  rfl

/-- Claim C4, amended: every mutator of a shared `Iconset` or `Icon` that
begins with `detach()` — `Iconset::setIcon`, `removeIcon`, `clear`,
`operator+=`, `setInformation` and `load`, and `Icon::setName`, `setRegExp`,
`setText`, `setSound`, `setImpix`, `setAnim`, `removeAnim`,
`stripFirstAnimFrame` and `loadFromData` (the latter five with their public
default detach flag) — copies the shared `Private` first, so mutating one of
two sharing objects leaves the state observed through the other unchanged;
the exceptions are `Iconset::setInfo` and `Iconset::setFileName`, which
write the shared `Private` in place, and `Icon::activated`, `Icon::stop` and
`Icon::blockSignals`, which adjust the shared activation counter, animation
run-state and signal gate without detaching — their effects are observed
through every object sharing the data. -/
theorem cow_mutators_detach_except_inplace_writers
    (w : Share.World IsetContent) (o o' d : Nat) (p : Share.Priv IsetContent)
    (hoo : o ≠ o')
    (ho : AMap.lookup w.objs o = some d)
    (ho' : AMap.lookup w.objs o' = some d)
    (hd : AMap.lookup w.heap d = some p)
    (hc : 2 ≤ p.count)
    (hfresh : AMap.lookup w.heap w.nextData = none)
    (v : Share.World IconContent) (a a' e : Nat) (q : Share.Priv IconContent)
    (haa : a ≠ a')
    (ha : AMap.lookup v.objs a = some e)
    (ha' : AMap.lookup v.objs a' = some e)
    (he : AMap.lookup v.heap e = some q)
    (hq : 2 ≤ q.count)
    (hfv : AMap.lookup v.heap v.nextData = none) :
    (∀ n pn, Share.view (Iset.setIcon w o n pn) o' = Share.view w o') ∧
    (∀ n, Share.view (Iset.removeIcon w o n) o' = Share.view w o') ∧
    (Share.view (Iset.clear w o) o' = Share.view w o') ∧
    (∀ entries, Share.view (Iset.plusEq w o entries) o' = Share.view w o') ∧
    (∀ src, Share.view (Iset.setInformation w o src) o' = Share.view w o') ∧
    (∀ env dir, Share.view (Iset.load env w o dir) o' = Share.view w o') ∧
    (∀ i, Share.view (Iset.setInfo w o i) o' =
        some { p.content with ld := { p.content.ld with info := i } }) ∧
    (∀ fn, Share.view (Iset.setFileName w o fn) o' =
        some { p.content with ld := { p.content.ld with filename := fn } }) ∧
    (∀ junk nm, Share.view (IconC.setName v a nm junk) a' = Share.view v a') ∧
    (∀ junk r, Share.view (IconC.setRegExp v a r junk) a' = Share.view v a') ∧
    (∀ junk t, Share.view (IconC.setText v a t junk) a' = Share.view v a') ∧
    (∀ junk s, Share.view (IconC.setSound v a s junk) a' = Share.view v a') ∧
    (∀ junk im, Share.view (IconC.setImpix v a im junk) a' = Share.view v a') ∧
    (∀ junk an, Share.view (IconC.setAnim v a an junk) a' = Share.view v a') ∧
    (∀ junk, Share.view (IconC.removeAnim v a junk) a' = Share.view v a') ∧
    (∀ junk fn, Share.view (IconC.stripFirstAnimFrame v a fn junk) a' =
        Share.view v a') ∧
    (∀ junk isAnim dec img,
        Share.view (IconC.loadFromData v a isAnim dec img junk) a' =
          Share.view v a') ∧
    (∀ ps, Share.view (IconC.activated v a ps) a' =
        some { q.content with icon := q.content.icon.activated ps }) ∧
    (Share.view (IconC.stop v a) a' =
        some { q.content with icon := q.content.icon.stop }) ∧
    (∀ b, Share.view (IconC.blockSignals v a b) a' =
        some { q.content with signalsBlocked := b }) := by
  refine ⟨fun n pn => ?_, fun n => ?_, ?_, fun entries => ?_, fun src => ?_,
    fun env dir => ?_, fun i => ?_, fun fn => ?_, fun junk nm => ?_,
    fun junk r => ?_, fun junk t => ?_, fun junk s => ?_, fun junk im => ?_,
    fun junk an => ?_, fun junk => ?_, fun junk fn => ?_,
    fun junk isAnim dec img => ?_, fun ps => ?_, ?_, fun b => ?_⟩
  · exact (share_detachThenMutate_view w o o' d p id _ hoo ho ho' hd hc hfresh).1
  · exact (share_detachThenMutate_view w o o' d p id _ hoo ho ho' hd hc hfresh).1
  · exact (share_detachThenMutate_view w o o' d p id _ hoo ho ho' hd hc hfresh).1
  · exact (share_detachThenMutate_view w o o' d p id _ hoo ho ho' hd hc hfresh).1
  · exact (share_detachThenMutate_view w o o' d p id _ hoo ho ho' hd hc hfresh).1
  · exact (share_detachThenMutate_view w o o' d p id _ hoo ho ho' hd hc hfresh).1
  · exact share_mutate_view w o o' d p _ ho ho' hd
  · exact share_mutate_view w o o' d p _ ho ho' hd
  · exact (share_detachThenMutate_view v a a' e q (iconCopy junk) _
      haa ha ha' he hq hfv).1
  · exact (share_detachThenMutate_view v a a' e q (iconCopy junk) _
      haa ha ha' he hq hfv).1
  · exact (share_detachThenMutate_view v a a' e q (iconCopy junk) _
      haa ha ha' he hq hfv).1
  · exact (share_detachThenMutate_view v a a' e q (iconCopy junk) _
      haa ha ha' he hq hfv).1
  · exact (share_detachThenMutate_view v a a' e q (iconCopy junk) _
      haa ha ha' he hq hfv).1
  · exact (share_detachThenMutate_view v a a' e q (iconCopy junk) _
      haa ha ha' he hq hfv).1
  · exact (share_detachThenMutate_view v a a' e q (iconCopy junk) _
      haa ha ha' he hq hfv).1
  · exact (share_detachThenMutate_view v a a' e q (iconCopy junk) _
      haa ha ha' he hq hfv).1
  · exact (share_detachThenMutate_view v a a' e q (iconCopy junk) _
      haa ha ha' he hq hfv).1
  · exact share_mutate_view v a a' e q _ ha ha' he
  · exact share_mutate_view v a a' e q _ ha ha' he
  · exact share_mutate_view v a a' e q _ ha ha' he

/-- Witness for the amended C4 at the concrete shared worlds: `setIcon`
through iconset object 1 leaves the view through object 2 unchanged. -/
theorem cow_mutators_detach_except_inplace_writers_witness :
    Share.view (Iset.setIcon wIset0 1 "a" 5) 2 = Share.view wIset0 2 :=
  ((cow_mutators_detach_except_inplace_writers wIset0 1 2 0
      ⟨2, ⟨Load.Private.init, [("n", 7)]⟩⟩
      (by decide) rfl rfl rfl (by decide) rfl
      vIcon0 1 2 0 ⟨2, qIcon0⟩
      (by decide) rfl rfl rfl (by decide) rfl).1) "a" 5
